import Mathlib

/-!
Verification of the cv2interview backend core against its specification.

The development shallowly embeds the Python sources of the repository:

* `app/tools/pdf_tool.py`              — `PDFConverterTool`
* `app/tools/profile_extractor.py`     — `ProfileExtractorTool._parse_response`
* `app/tools/career_recommender.py`    — `CareerRecommenderTool._parse_response`
* `app/tools/question_generator.py`    — `QuestionGeneratorTool._parse_response`
* `app/agent/cv_agent.py`              — `EnhancedCVAgent`
* `app/services/analytics_service.py`  — `AnalyticsService`

Python strings are embedded as `List Char` (`Str`).  Python's `json` module is
embedded by an executable JSON value type, serializer and parser below.  The
embedding of the `json` standard library makes the following documented
abstractions, none of which is observable by any theorem in this file:

* `json.dumps(x, indent=2)` is embedded as a compact serializer (no inter-token
  whitespace).  The parser skips whitespace between tokens, so serialized text
  parses to the same value in either rendering, and every property proved here
  depends on serialized text only through the parser, through the position of
  the first `{` and last `}` (which are the first and last characters of the
  serialization of an object in both renderings), and through line-splitting of
  *raw model responses*, never of serializer output.
* The serializer escapes `"` and `\` and emits all other characters verbatim
  (Python additionally uses named and `\uXXXX` escapes); the parser understands
  the standard single-character escapes.  Both sides agree, which is what the
  theorems use.
* Number literals: scientific notation, `NaN`/`Infinity`, leading-zero
  tolerance and underscore tolerance of Python's float parser are not modelled;
  floats are embedded exactly as decimal fixed-point rationals (a mantissa and
  a count of fractional digits), which covers every numeric literal appearing
  in the code and in the claims.
-/

/-- Python strings, embedded as lists of characters. -/
abbrev Str := List Char

namespace PyStr

/-- Characters stripped by Python's `str.strip()` with no arguments. -/
def isSpace (c : Char) : Bool :=
  c = ' ' || c = '\t' || c = '\n' || c = '\r' || c = '\x0b' || c = '\x0c'

/-- Python `str.strip()`: remove leading and trailing whitespace. -/
def strip (s : Str) : Str :=
  ((s.dropWhile isSpace).reverse.dropWhile isSpace).reverse

/-- Python `str.split('\n')`: split on newlines, keeping empty pieces
(`''.split('\n') == ['']`). -/
def splitLines (s : Str) : List Str :=
  match s with
  | [] => [[]]
  | c :: rest =>
    let tail := splitLines rest
    if c = '\n' then [] :: tail
    else match tail with
         | [] => [[c]]
         | l :: ls => (c :: l) :: ls

/-- Python `needle in haystack` for strings: substring containment. -/
def containsSub (needle hay : Str) : Bool :=
  hay.tails.any (fun t => needle.isPrefixOf t)

/-- Python `str.lower()` (ASCII case mapping suffices for every string the
claims touch). -/
def lower (s : Str) : Str := s.map Char.toLower

/-- Python `str.find(c)`: index of the first occurrence, or none. -/
def findIdx (c : Char) (s : Str) : Option Nat :=
  match s with
  | [] => none
  | a :: rest => if a = c then some 0 else (findIdx c rest).map (· + 1)

/-- Python `str.rfind(c)`: index of the last occurrence, or none. -/
def rfindIdx (c : Char) (s : Str) : Option Nat :=
  match s with
  | [] => none
  | a :: rest =>
    match rfindIdx c rest with
    | some i => some (i + 1)
    | none => if a = c then some 0 else none

end PyStr

/-! ## The JSON data model (embedding of Python `json` values)

`intNum n` is a Python `int`; `floatNum m e` is the Python `float` with decimal
value `m / 10^e`.  Objects are insertion-ordered key/value lists, as Python
dicts are. -/

inductive Json where
  | null : Json
  | bool : Bool → Json
  | intNum : Int → Json
  | floatNum : Int → Nat → Json
  | str : Str → Json
  | arr : List Json → Json
  | obj : List (Str × Json) → Json

instance : Inhabited Json := ⟨Json.null⟩

namespace Json

/-- Keys of an object association list. -/
def keys (kvs : List (Str × Json)) : List Str := kvs.map Prod.fst

/-- Python `k in d` on a dict. -/
def hasKey (kvs : List (Str × Json)) (k : Str) : Bool :=
  kvs.any (fun p => p.1 = k)

/-- Python `d.get(k)` / `d[k]` lookup on a dict embedded as an ordered list. -/
def lookup (kvs : List (Str × Json)) (k : Str) : Option Json :=
  match kvs with
  | [] => none
  | (k₀, v₀) :: rest => if k₀ = k then some v₀ else lookup rest k

/-- Python `d[k] = v`: replace in place when the key exists (keeping its
position), append otherwise. -/
def setKey (kvs : List (Str × Json)) (k : Str) (v : Json) : List (Str × Json) :=
  match kvs with
  | [] => [(k, v)]
  | (k₀, v₀) :: rest =>
    if k₀ = k then (k₀, v) :: rest else (k₀, v₀) :: setKey rest k v

theorem lookup_setKey_self (kvs : List (Str × Json)) (k : Str) (v : Json) :
    lookup (setKey kvs k v) k = some v := by
  induction kvs with
  | nil => simp [setKey, lookup]
  | cons p rest ih =>
    by_cases h : p.1 = k <;> simp [setKey, lookup, h, ih]

theorem lookup_setKey_other (kvs : List (Str × Json)) (k k' : Str) (v : Json)
    (h : k' ≠ k) : lookup (setKey kvs k v) k' = lookup kvs k' := by
  induction kvs with
  | nil => simp [setKey, lookup]; intro h'; exact absurd h'.symm h
  | cons p rest ih =>
    by_cases h₀ : p.1 = k
    · have h₁ : ¬ p.1 = k' := by rw [h₀]; intro h'; exact h h'.symm
      have h₂ : ¬ k = k' := fun h' => h h'.symm
      simp [setKey, lookup, h₀, h₁, h₂]
    · by_cases h₁ : p.1 = k' <;> simp [setKey, lookup, h₀, h₁, h, ih]

theorem setKey_of_not_hasKey (kvs : List (Str × Json)) (k : Str) (v : Json)
    (h : hasKey kvs k = false) : setKey kvs k v = kvs ++ [(k, v)] := by
  induction kvs with
  | nil => simp [setKey]
  | cons p rest ih =>
    simp [hasKey] at h
    simp [setKey, h.1, ih (by simpa [hasKey] using h.2)]

theorem keys_setKey_of_hasKey (kvs : List (Str × Json)) (k : Str) (v : Json)
    (h : hasKey kvs k = true) : keys (setKey kvs k v) = keys kvs := by
  induction kvs with
  | nil => simp [hasKey] at h
  | cons p rest ih =>
    by_cases h₀ : p.1 = k
    · simp [setKey, keys, h₀]
    · have h₁ : hasKey rest k = true := by
        simpa [hasKey, h₀] using h
      have h₂ := ih h₁
      simp only [keys] at h₂
      simp [setKey, keys, h₀, h₂]

theorem hasKey_iff_lookup (kvs : List (Str × Json)) (k : Str) :
    hasKey kvs k = true ↔ ∃ v, lookup kvs k = some v := by
  induction kvs with
  | nil => simp [hasKey, lookup]
  | cons p rest ih =>
    by_cases h : p.1 = k
    · simp [hasKey, lookup, h]
    · rw [show hasKey (p :: rest) k = hasKey rest k from by simp [hasKey, h]]
      simp [lookup, h, ih]

end Json

/-! ## Serialization (embedding of `json.dumps`) -/

namespace Json

/-- Decimal digits of a natural number (`"0"` for zero). -/
def natToChars (n : Nat) : Str :=
  if n = 0 then ['0'] else (Nat.digits 10 n).reverse.map Nat.digitChar

/-- Python `repr` of an `int`. -/
def intToChars (i : Int) : Str :=
  if i < 0 then '-' :: natToChars i.natAbs else natToChars i.natAbs

/-- Left-pad a digit string with zeros to the given width. -/
def padZeros (width : Nat) (s : Str) : Str :=
  List.replicate (width - s.length) '0' ++ s

/-- Decimal rendering of the float `m / 10^e` (`e ≥ 1` for well-formed
values, so the output always has a decimal point, as Python float repr does). -/
def floatToChars (m : Int) (e : Nat) : Str :=
  let a := m.natAbs / 10 ^ e
  let b := m.natAbs % 10 ^ e
  let body := natToChars a ++ '.' :: padZeros e (natToChars b)
  if m < 0 then '-' :: body else body

/-- JSON string escaping: `"` and `\` get a backslash, everything else is
emitted verbatim. -/
def escape : Str → Str
  | [] => []
  | c :: rest => (if c = '"' || c = '\\' then ['\\', c] else [c]) ++ escape rest

mutual

/-- Serializer for JSON values (embedding of `json.dumps`; see the header for
the whitespace abstraction). -/
def dumps : Json → Str
  | .null => ['n', 'u', 'l', 'l']
  | .bool b => if b then ['t', 'r', 'u', 'e'] else ['f', 'a', 'l', 's', 'e']
  | .intNum i => intToChars i
  | .floatNum m e => floatToChars m e
  | .str s => '"' :: escape s ++ ['"']
  | .arr [] => ['[', ']']
  | .arr (x :: xs) => '[' :: (dumps x ++ dumpsArrRest xs ++ [']'])
  | .obj [] => ['{', '}']
  | .obj (kv :: kvs) => '{' :: (dumpsPair kv ++ dumpsObjRest kvs ++ ['}'])

/-- Remaining array elements, each preceded by a comma. -/
def dumpsArrRest : List Json → Str
  | [] => []
  | x :: xs => ',' :: (dumps x ++ dumpsArrRest xs)

/-- One `"key":value` pair. -/
def dumpsPair : Str × Json → Str
  | (k, v) => '"' :: (escape k ++ '"' :: ':' :: dumps v)

/-- Remaining object pairs, each preceded by a comma. -/
def dumpsObjRest : List (Str × Json) → Str
  | [] => []
  | kv :: kvs => ',' :: (dumpsPair kv ++ dumpsObjRest kvs)

end

mutual

/-- Well-formed JSON values: floats carry at least one fractional digit and
object keys are distinct (both invariants hold for every value built by the
parser or by the embedded code). -/
def wfB : Json → Bool
  | .null => true
  | .bool _ => true
  | .intNum _ => true
  | .floatNum _ e => decide (1 ≤ e)
  | .str _ => true
  | .arr xs => wfListB xs
  | .obj kvs => wfKvsB kvs

/-- Well-formedness for array element lists. -/
def wfListB : List Json → Bool
  | [] => true
  | x :: xs => wfB x && wfListB xs

/-- Well-formedness for object pair lists: head key absent from the tail and
all values well-formed. -/
def wfKvsB : List (Str × Json) → Bool
  | [] => true
  | (k, v) :: rest => !hasKey rest k && wfB v && wfKvsB rest

end

mutual

/-- Structural size used as parser fuel: every node and list cell counts one;
numeric magnitudes do not contribute. -/
def jsize : Json → Nat
  | .null => 1
  | .bool _ => 1
  | .intNum _ => 1
  | .floatNum _ _ => 1
  | .str _ => 1
  | .arr xs => 1 + jsizeList xs
  | .obj kvs => 1 + jsizeKvs kvs

/-- Fuel size of an array element list. -/
def jsizeList : List Json → Nat
  | [] => 1
  | x :: xs => 1 + jsize x + jsizeList xs

/-- Fuel size of an object pair list. -/
def jsizeKvs : List (Str × Json) → Nat
  | [] => 1
  | (_, v) :: rest => 1 + jsize v + jsizeKvs rest

end

end Json

/-! ## Parsing (embedding of `json.loads`) -/

namespace Json

/-- JSON inter-token whitespace. -/
def isJsonWs (c : Char) : Bool := c = ' ' || c = '\t' || c = '\n' || c = '\r'

/-- Skip inter-token whitespace. -/
def skipWs (s : Str) : Str := s.dropWhile isJsonWs

/-- Single-character string escapes understood by the parser. -/
def unescChar (c : Char) : Option Char :=
  if c = '"' then some '"'
  else if c = '\\' then some '\\'
  else if c = '/' then some '/'
  else if c = 'n' then some '\n'
  else if c = 't' then some '\t'
  else if c = 'r' then some '\r'
  else if c = 'b' then some '\x08'
  else if c = 'f' then some '\x0c'
  else none

/-- Parse the body of a string literal (after the opening quote), returning the
content and the input after the closing quote. -/
def parseStringBody : Str → Option (Str × Str)
  | [] => none
  | c :: rest =>
    if c = '"' then some ([], rest)
    else if c = '\\' then
      match rest with
      | [] => none
      | e :: r =>
        match unescChar e with
        | none => none
        | some c2 => (parseStringBody r).map (fun p => (c2 :: p.1, p.2))
    else (parseStringBody rest).map (fun p => (c :: p.1, p.2))

/-- Numeric value of a digit run. -/
def digitsVal (ds : Str) : Nat := ds.foldl (fun a c => a * 10 + (c.toNat - 48)) 0

/-- Parse a nonempty digit run: value, digit count and remaining input. -/
def parseNat (s : Str) : Option (Nat × Nat × Str) :=
  let ds := s.takeWhile Char.isDigit
  if ds.isEmpty then none
  else some (digitsVal ds, ds.length, s.dropWhile Char.isDigit)

/-- Parse a number body (sign already consumed): integer part and optional
fractional part. -/
def parseNumBody (neg : Bool) (s : Str) : Option (Json × Str) :=
  match parseNat s with
  | none => none
  | some (a, _, r) =>
    match r with
    | '.' :: r2 =>
      match parseNat r2 with
      | none => none
      | some (b, k, r3) =>
        let m : Int := (a * 10 ^ k + b : Nat)
        some (.floatNum (if neg then -m else m) k, r3)
    | _ => some (.intNum (if neg then -(a : Int) else (a : Nat)), r)

/-- Consume an exact literal. -/
def expectChars (lit : Str) (s : Str) : Option Str :=
  if lit.isPrefixOf s then some (s.drop lit.length) else none

mutual

/-- Fuel-indexed JSON value parser; returns the value and the remaining
input. -/
def parseVal : Nat → Str → Option (Json × Str)
  | 0, _ => none
  | fuel + 1, s =>
    match skipWs s with
    | [] => none
    | c :: r =>
      if c = '{' then
        match skipWs r with
        | '}' :: r2 => some (.obj [], r2)
        | r2 => parseObjElems fuel r2 []
      else if c = '[' then
        match skipWs r with
        | ']' :: r2 => some (.arr [], r2)
        | r2 => parseArrElems fuel r2 []
      else if c = '"' then
        (parseStringBody r).map (fun p => (.str p.1, p.2))
      else if c = '-' then parseNumBody true r
      else if c.isDigit then parseNumBody false (c :: r)
      else if c = 't' then (expectChars ['r', 'u', 'e'] r).map (fun r2 => (.bool true, r2))
      else if c = 'f' then (expectChars ['a', 'l', 's', 'e'] r).map (fun r2 => (.bool false, r2))
      else if c = 'n' then (expectChars ['u', 'l', 'l'] r).map (fun r2 => (.null, r2))
      else none

/-- Array elements after the first has been reached (accumulator in order). -/
def parseArrElems : Nat → Str → List Json → Option (Json × Str)
  | 0, _, _ => none
  | fuel + 1, s, acc =>
    match parseVal fuel s with
    | none => none
    | some (v, r) =>
      match skipWs r with
      | ',' :: r2 => parseArrElems fuel r2 (acc ++ [v])
      | ']' :: r2 => some (.arr (acc ++ [v]), r2)
      | _ => none

/-- Object members; duplicate keys overwrite in place, as Python dicts do. -/
def parseObjElems : Nat → Str → List (Str × Json) → Option (Json × Str)
  | 0, _, _ => none
  | fuel + 1, s, acc =>
    match skipWs s with
    | '"' :: r =>
      match parseStringBody r with
      | none => none
      | some (k, r2) =>
        match skipWs r2 with
        | ':' :: r3 =>
          match parseVal fuel r3 with
          | none => none
          | some (v, r4) =>
            match skipWs r4 with
            | ',' :: r5 => parseObjElems fuel r5 (setKey acc k v)
            | '}' :: r5 => some (.obj (setKey acc k v), r5)
            | _ => none
        | _ => none
    | _ => none

end

/-- Embedding of `json.loads`: parse one value, allow trailing whitespace
only.  The fuel `2·|s| + 2` dominates the fuel needed for any value the input
can denote (each two fuel steps consume at least one character). -/
def json_loads (s : Str) : Option Json :=
  match parseVal (2 * s.length + 2) s with
  | some (v, r) => if skipWs r = [] then some v else none
  | none => none

end Json

/-! ## Round-trip infrastructure -/

namespace Json

/-- Input that may legitimately follow a serialized value: empty, or starting
with a delimiter (which no number literal extends). -/
def stopOk : Str → Prop
  | [] => True
  | c :: _ => c = ',' ∨ c = ']' ∨ c = '}'

/-- Input whose head is not a digit. -/
def noDigitHead : Str → Prop
  | [] => True
  | c :: _ => c.isDigit = false

theorem stopOk_noDigitHead {r : Str} (h : stopOk r) : noDigitHead r := by
  cases r with
  | nil => trivial
  | cons c t =>
    have hc : c.isDigit = false := by
      rcases h with h | h | h <;> subst h <;> decide
    exact hc

theorem takeWhile_all_append {p : Char → Bool} {l r : Str}
    (hl : ∀ c ∈ l, p c = true) (hr : ∀ c t, r = c :: t → p c = false) :
    (l ++ r).takeWhile p = l ∧ (l ++ r).dropWhile p = r := by
  induction l with
  | nil =>
    cases r with
    | nil => simp
    | cons c t => simp [List.takeWhile_cons, List.dropWhile_cons, hr c t rfl]
  | cons a l ih =>
    have ha : p a = true := hl a (by simp)
    have ih2 := ih (fun c hc => hl c (by simp [hc]))
    simp [List.takeWhile_cons, List.dropWhile_cons, ha, ih2.1, ih2.2]

theorem digitChar_isDigit {d : Nat} (h : d < 10) : (Nat.digitChar d).isDigit = true := by
  interval_cases d <;> decide

theorem digitChar_toNat {d : Nat} (h : d < 10) : (Nat.digitChar d).toNat - 48 = d := by
  interval_cases d <;> decide

theorem natToChars_ne_nil (n : Nat) : natToChars n ≠ [] := by
  by_cases h : n = 0
  · simp [natToChars, h]
  · simp only [natToChars, h, if_false]
    have : Nat.digits 10 n ≠ [] := Nat.digits_ne_nil_iff_ne_zero.mpr h
    simpa using this

theorem natToChars_all_digits (n : Nat) : ∀ c ∈ natToChars n, c.isDigit = true := by
  by_cases h : n = 0
  · intro c hc
    simp [natToChars, h] at hc
    subst hc; decide
  · simp only [natToChars, h, if_false]
    intro c hc
    simp only [List.mem_map, List.mem_reverse] at hc
    obtain ⟨d, hd, rfl⟩ := hc
    exact digitChar_isDigit (Nat.digits_lt_base (by norm_num) hd)

theorem foldl_digits_rev (l : List Nat) (hl : ∀ d ∈ l, d < 10) (acc : Nat) :
    List.foldl (fun a c => a * 10 + (c.toNat - 48)) acc (l.reverse.map Nat.digitChar)
      = acc * 10 ^ l.length + Nat.ofDigits 10 l := by
  induction l generalizing acc with
  | nil => simp [Nat.ofDigits]
  | cons d l ih =>
    have hd : d < 10 := hl d (by simp)
    have hl2 : ∀ x ∈ l, x < 10 := fun x hx => hl x (by simp [hx])
    simp only [List.reverse_cons, List.map_append, List.foldl_append, ih hl2,
      List.map_cons, List.map_nil, List.foldl_cons, List.foldl_nil,
      Nat.ofDigits_cons, List.length_cons]
    rw [digitChar_toNat hd]
    ring

theorem digitsVal_natToChars (n : Nat) : digitsVal (natToChars n) = n := by
  by_cases h : n = 0
  · subst h; decide
  · simp only [digitsVal, natToChars, h, if_false]
    rw [foldl_digits_rev _ (fun d hd => Nat.digits_lt_base (by norm_num) hd)]
    simp [Nat.ofDigits_digits]

theorem natToChars_length_le {n e : Nat} (h : n < 10 ^ e) (he : 1 ≤ e) :
    (natToChars n).length ≤ e := by
  by_cases h0 : n = 0
  · simp [natToChars, h0]; omega
  · simp only [natToChars, h0, if_false, List.length_map, List.length_reverse]
    by_contra hlen
    push_neg at hlen
    have h1 : 10 ^ (Nat.digits 10 n).length ≤ 10 * n :=
      Nat.base_pow_length_digits_le 10 n (by norm_num) h0
    have h2 : 10 ^ (e + 1) ≤ 10 ^ (Nat.digits 10 n).length :=
      Nat.pow_le_pow_right (by norm_num) hlen
    have h3 : 10 * n < 10 * 10 ^ e := by omega
    rw [pow_succ] at h2
    omega

end Json

namespace Json

theorem noDigitHead_head {r : Str} (h : noDigitHead r) :
    ∀ c t, r = c :: t → Char.isDigit c = false := by
  intro c t hr
  subst hr
  exact h

theorem parseNat_append (n : Nat) {r : Str} (hr : noDigitHead r) :
    parseNat (natToChars n ++ r) = some (n, (natToChars n).length, r) := by
  have h := takeWhile_all_append (natToChars_all_digits n) (noDigitHead_head hr)
  simp [parseNat, h.1, h.2, natToChars_ne_nil n, digitsVal_natToChars, List.isEmpty_iff]

theorem foldl_zeros (k : Nat) :
    List.foldl (fun a c => a * 10 + (c.toNat - 48)) 0 (List.replicate k '0') = 0 := by
  induction k with
  | zero => rfl
  | succ k ih => simpa [List.replicate_succ] using ih

theorem parseNat_padZeros {b e : Nat} (hb : b < 10 ^ e) (he : 1 ≤ e) {r : Str}
    (hr : noDigitHead r) :
    parseNat (padZeros e (natToChars b) ++ r) = some (b, e, r) := by
  have hall : ∀ c ∈ padZeros e (natToChars b), c.isDigit = true := by
    intro c hc
    simp only [padZeros, List.mem_append, List.mem_replicate] at hc
    rcases hc with ⟨-, rfl⟩ | hc
    · decide
    · exact natToChars_all_digits b c hc
  have h := takeWhile_all_append hall (noDigitHead_head hr)
  have hne : padZeros e (natToChars b) ≠ [] := by
    intro hcontra
    simp only [padZeros, List.append_eq_nil] at hcontra
    exact natToChars_ne_nil b hcontra.2
  have hlen : (padZeros e (natToChars b)).length = e := by
    have := natToChars_length_le hb he
    simp [padZeros]
    omega
  have hval : digitsVal (padZeros e (natToChars b)) = b := by
    have h2 := digitsVal_natToChars b
    simp only [digitsVal] at h2
    simp [digitsVal, padZeros, List.foldl_append, foldl_zeros, h2]
  simp [parseNat, h.1, h.2, hne, hlen, hval, List.isEmpty_iff]

theorem stopOk_ne_dot {r : Str} (h : stopOk r) :
    (match r with
     | '.' :: _ => False
     | _ => True) := by
  cases r with
  | nil => trivial
  | cons c t => rcases h with h | h | h <;> subst h <;> trivial

theorem parseNumBody_int (n : Nat) (neg : Bool) {r : Str} (hr : stopOk r) :
    parseNumBody neg (natToChars n ++ r)
      = some (.intNum (if neg then -(n : Int) else (n : Int)), r) := by
  rw [parseNumBody, parseNat_append n (stopOk_noDigitHead hr)]
  cases r with
  | nil => rfl
  | cons c t =>
    rcases hr with h | h | h <;> subst h <;> rfl

theorem parseNumBody_float (a b e : Nat) (neg : Bool) (hb : b < 10 ^ e) (he : 1 ≤ e)
    {r : Str} (hr : stopOk r) :
    parseNumBody neg (natToChars a ++ '.' :: (padZeros e (natToChars b) ++ r))
      = some (.floatNum (if neg then -((a * 10 ^ e + b : Nat) : Int)
                         else ((a * 10 ^ e + b : Nat) : Int)) e, r) := by
  have h1 : noDigitHead ('.' :: (padZeros e (natToChars b) ++ r)) := by
    simp only [noDigitHead]
    decide
  rw [parseNumBody]
  rw [show natToChars a ++ '.' :: (padZeros e (natToChars b) ++ r)
        = natToChars a ++ ('.' :: (padZeros e (natToChars b) ++ r)) from rfl]
  rw [parseNat_append a h1]
  simp only
  rw [parseNat_padZeros hb he (stopOk_noDigitHead hr)]

end Json

namespace Json

theorem parseStringBody_quote (r : Str) : parseStringBody ('"' :: r) = some ([], r) := by
  rw [parseStringBody.eq_def]
  simp

theorem parseStringBody_backslash_some {e c2 : Char} (r : Str) (h : unescChar e = some c2) :
    parseStringBody ('\\' :: e :: r)
      = (parseStringBody r).map (fun p => (c2 :: p.1, p.2)) := by
  rw [parseStringBody.eq_def]
  simp [h]

theorem parseStringBody_raw {c : Char} (r : Str) (h1 : ¬ c = '"') (h2 : ¬ c = '\\') :
    parseStringBody (c :: r) = (parseStringBody r).map (fun p => (c :: p.1, p.2)) := by
  rw [parseStringBody.eq_def]
  simp [h1, h2]

theorem parseStringBody_escape (s : Str) (r : Str) :
    parseStringBody (escape s ++ '"' :: r) = some (s, r) := by
  induction s with
  | nil => simp [escape, parseStringBody_quote]
  | cons c cs ih =>
    by_cases h : c = '"' ∨ c = '\\'
    · have hesc : escape (c :: cs) = '\\' :: c :: escape cs := by
        rcases h with h | h <;> subst h <;> simp [escape]
      have hun : unescChar c = some c := by
        rcases h with h | h <;> subst h <;> rfl
      rw [hesc, List.cons_append, List.cons_append, parseStringBody_backslash_some _ hun, ih]
      rfl
    · push_neg at h
      have hesc : escape (c :: cs) = c :: escape cs := by
        simp [escape, h.1, h.2]
      rw [hesc, List.cons_append, parseStringBody_raw _ h.1 h.2, ih]
      rfl

/-- Characters that can open a serialized value: never whitespace and never a
closing delimiter, so the parser's dispatch sees them unchanged. -/
def goodStart (c : Char) : Bool :=
  !(isJsonWs c) && !(c = ']') && !(c = '}') && !(c = ',') && !(c = ':')

theorem isDigit_goodStart {c : Char} (h : c.isDigit = true) : goodStart c = true := by
  have ne : ∀ x : Char, x.isDigit = false → c ≠ x := by
    intro x hx hcx
    subst hcx
    simp [hx] at h
  simp [goodStart, isJsonWs, ne ' ' (by decide), ne '\t' (by decide),
    ne '\n' (by decide), ne '\r' (by decide), ne ']' (by decide),
    ne '}' (by decide), ne ',' (by decide), ne ':' (by decide)]

theorem natToChars_headGood (n : Nat) :
    ∃ c t, natToChars n = c :: t ∧ goodStart c = true := by
  obtain ⟨c, t, hct⟩ : ∃ c t, natToChars n = c :: t := by
    cases hh : natToChars n with
    | nil => exact absurd hh (natToChars_ne_nil n)
    | cons c t => exact ⟨c, t, rfl⟩
  exact ⟨c, t, hct, isDigit_goodStart (natToChars_all_digits n c (by simp [hct]))⟩

theorem dumps_headGood (v : Json) :
    ∃ c t, dumps v = c :: t ∧ goodStart c = true := by
  cases v with
  | null => exact ⟨'n', _, rfl, by decide⟩
  | bool b => cases b with
    | true => exact ⟨'t', _, rfl, by decide⟩
    | false => exact ⟨'f', _, rfl, by decide⟩
  | intNum i =>
    by_cases h : i < 0
    · exact ⟨'-', natToChars i.natAbs, by simp [dumps, intToChars, h], by decide⟩
    · obtain ⟨c, t, hct, hg⟩ := natToChars_headGood i.natAbs
      exact ⟨c, t, by simp [dumps, intToChars, h, hct], hg⟩
  | floatNum m e =>
    by_cases h : m < 0
    · exact ⟨'-', natToChars (m.natAbs / 10 ^ e) ++
        '.' :: padZeros e (natToChars (m.natAbs % 10 ^ e)),
        by simp [dumps, floatToChars, h], by decide⟩
    · obtain ⟨c, t, hct, hg⟩ := natToChars_headGood (m.natAbs / 10 ^ e)
      exact ⟨c, t ++ '.' :: padZeros e (natToChars (m.natAbs % 10 ^ e)),
        by simp [dumps, floatToChars, h, hct], hg⟩
  | str s => exact ⟨'"', _, rfl, by decide⟩
  | arr xs => cases xs with
    | nil => exact ⟨'[', _, rfl, by decide⟩
    | cons x xs => exact ⟨'[', _, rfl, by decide⟩
  | obj kvs => cases kvs with
    | nil => exact ⟨'{', _, rfl, by decide⟩
    | cons kv kvs => exact ⟨'{', _, rfl, by decide⟩

theorem skipWs_goodStart {c : Char} (t : Str) (h : goodStart c = true) :
    skipWs (c :: t) = c :: t := by
  have hws : isJsonWs c = false := by
    simp only [goodStart, Bool.and_eq_true, Bool.not_eq_true'] at h
    exact h.1.1.1.1
  simp [skipWs, List.dropWhile_cons, hws]

theorem skipWs_dumps_append (v : Json) (r : Str) :
    skipWs (dumps v ++ r) = dumps v ++ r := by
  obtain ⟨c, t, hct, hg⟩ := dumps_headGood v
  rw [hct]
  exact skipWs_goodStart _ hg

end Json

namespace Json

theorem skipWs_cons_of_not_ws {c : Char} (t : Str) (h : isJsonWs c = false) :
    skipWs (c :: t) = c :: t := by
  simp [skipWs, List.dropWhile_cons, h]

theorem hasKey_eq_false_iff (kvs : List (Str × Json)) (k : Str) :
    hasKey kvs k = false ↔ ∀ p ∈ kvs, p.1 ≠ k := by
  simp [hasKey]

theorem hasKey_append (a b : List (Str × Json)) (k : Str) :
    hasKey (a ++ b) k = (hasKey a k || hasKey b k) := by
  simp [hasKey, List.any_append]

theorem isDigit_ne {c x : Char} (h : c.isDigit = true) (hx : x.isDigit = false) : c ≠ x := by
  intro hcx
  subst hcx
  simp [hx] at h

theorem stopOk_arrRest (xs : List Json) (rest : Str) :
    stopOk (dumpsArrRest xs ++ ']' :: rest) := by
  cases xs with
  | nil => simp [dumpsArrRest, stopOk]
  | cons y ys => simp [dumpsArrRest, stopOk]

theorem stopOk_objRest (kvs : List (Str × Json)) (rest : Str) :
    stopOk (dumpsObjRest kvs ++ '}' :: rest) := by
  cases kvs with
  | nil => simp [dumpsObjRest, stopOk]
  | cons kv kvs => simp [dumpsObjRest, stopOk]

end Json

namespace Json

theorem expectChars_append (lit r : Str) : expectChars lit (lit ++ r) = some r := by
  simp [expectChars, List.isPrefixOf_iff_prefix, List.prefix_append, List.drop_left]

theorem goodStart_not_ws {c : Char} (h : goodStart c = true) : isJsonWs c = false := by
  simp only [goodStart, Bool.and_eq_true, Bool.not_eq_true'] at h
  exact h.1.1.1.1

theorem jsize_pos (v : Json) : 1 ≤ jsize v := by
  cases v <;> simp [jsize] <;> omega

theorem jsizeList_pos (xs : List Json) : 1 ≤ jsizeList xs := by
  cases xs <;> simp [jsizeList] <;> omega

theorem jsizeKvs_pos (kvs : List (Str × Json)) : 1 ≤ jsizeKvs kvs := by
  cases kvs with
  | nil => simp [jsizeKvs]
  | cons kv rest => obtain ⟨k, v⟩ := kv; simp [jsizeKvs]; omega


theorem expectChars_nil (s : Str) : expectChars [] s = some s := by
  simp [expectChars, List.isPrefixOf]

theorem expectChars_cons (a : Char) (lit s : Str) :
    expectChars (a :: lit) (a :: s) = expectChars lit s := by
  simp [expectChars, List.isPrefixOf]

theorem parseVal_succ_n (m : Nat) (s : Str) :
    parseVal (m + 1) ('n' :: s)
      = (expectChars ['u', 'l', 'l'] s).map (fun r2 => (Json.null, r2)) := by
  rw [parseVal.eq_def]
  simp [skipWs, List.dropWhile_cons, isJsonWs]

theorem parseVal_succ_t (m : Nat) (s : Str) :
    parseVal (m + 1) ('t' :: s)
      = (expectChars ['r', 'u', 'e'] s).map (fun r2 => (Json.bool true, r2)) := by
  rw [parseVal.eq_def]
  simp [skipWs, List.dropWhile_cons, isJsonWs]

theorem parseVal_succ_f (m : Nat) (s : Str) :
    parseVal (m + 1) ('f' :: s)
      = (expectChars ['a', 'l', 's', 'e'] s).map (fun r2 => (Json.bool false, r2)) := by
  rw [parseVal.eq_def]
  simp [skipWs, List.dropWhile_cons, isJsonWs]

theorem parseVal_succ_quote (m : Nat) (s : Str) :
    parseVal (m + 1) ('"' :: s)
      = (parseStringBody s).map (fun p => (Json.str p.1, p.2)) := by
  rw [parseVal.eq_def]
  simp [skipWs, List.dropWhile_cons, isJsonWs]

theorem parseVal_succ_minus (m : Nat) (s : Str) :
    parseVal (m + 1) ('-' :: s) = parseNumBody true s := by
  rw [parseVal.eq_def]
  simp [skipWs, List.dropWhile_cons, isJsonWs]

theorem parseVal_succ_digit (m : Nat) {c : Char} (h : c.isDigit = true) (s : Str) :
    parseVal (m + 1) (c :: s) = parseNumBody false (c :: s) := by
  rw [parseVal.eq_def]
  have h1 : ¬ c = '{' := isDigit_ne h (by decide)
  have h2 : ¬ c = '[' := isDigit_ne h (by decide)
  have h3 : ¬ c = '"' := isDigit_ne h (by decide)
  have h4 : ¬ c = '-' := isDigit_ne h (by decide)
  have hskip : skipWs (c :: s) = c :: s :=
    skipWs_cons_of_not_ws _ (goodStart_not_ws (isDigit_goodStart h))
  simp only [hskip, h1, h2, h3, h4, h, if_false, if_true, ite_false, ite_true]

theorem parseVal_succ_lbrace_close (m : Nat) (rest : Str) :
    parseVal (m + 1) ('{' :: ('}' :: rest)) = some (Json.obj [], rest) := by
  rw [parseVal.eq_def]
  simp [skipWs, List.dropWhile_cons, isJsonWs]

theorem parseVal_succ_lbrace_go (m : Nat) {c : Char} (hc : ¬ c = '}')
    (hws : isJsonWs c = false) (s : Str) :
    parseVal (m + 1) ('{' :: (c :: s)) = parseObjElems m (c :: s) [] := by
  have hd : List.dropWhile isJsonWs (c :: s) = c :: s := by
    simp [List.dropWhile_cons, hws]
  rw [parseVal.eq_def]
  simp only [skipWs, List.dropWhile_cons, isJsonWs]
  simp [hc]
  split
  · next r2 heq =>
    rw [hd] at heq
    injection heq with heq1 heq2
    exact absurd heq1 hc
  · rw [hd]

theorem parseVal_succ_lbrack_close (m : Nat) (rest : Str) :
    parseVal (m + 1) ('[' :: (']' :: rest)) = some (Json.arr [], rest) := by
  rw [parseVal.eq_def]
  simp [skipWs, List.dropWhile_cons, isJsonWs]

theorem parseVal_succ_lbrack_go (m : Nat) {c : Char} (hc : ¬ c = ']')
    (hws : isJsonWs c = false) (s : Str) :
    parseVal (m + 1) ('[' :: (c :: s)) = parseArrElems m (c :: s) [] := by
  have hd : List.dropWhile isJsonWs (c :: s) = c :: s := by
    simp [List.dropWhile_cons, hws]
  rw [parseVal.eq_def]
  simp only [skipWs, List.dropWhile_cons, isJsonWs]
  simp [hc]
  split
  · next r2 heq =>
    rw [hd] at heq
    injection heq with heq1 heq2
    exact absurd heq1 hc
  · rw [hd]


theorem goodStart_ne {c : Char} (h : goodStart c = true) : ¬ c = ']' ∧ ¬ c = '}' := by
  simp only [goodStart, Bool.and_eq_true, Bool.not_eq_true', decide_eq_false_iff_not] at h
  exact ⟨h.1.1.1.2, h.1.1.2⟩

end Json

namespace Json

theorem parse_dumps_main : ∀ n : Nat,
    (∀ (v : Json) (rest : Str), wfB v = true → stopOk rest → jsize v ≤ n →
        parseVal n (dumps v ++ rest) = some (v, rest)) ∧
    (∀ (x : Json) (xs : List Json) (acc : List Json) (rest : Str),
        wfListB (x :: xs) = true → jsizeList (x :: xs) ≤ n + 1 →
        parseArrElems n (dumps x ++ (dumpsArrRest xs ++ ']' :: rest)) acc
          = some (.arr (acc ++ x :: xs), rest)) ∧
    (∀ (k : Str) (v : Json) (kvs : List (Str × Json)) (acc : List (Str × Json)) (rest : Str),
        wfKvsB ((k, v) :: kvs) = true →
        (∀ p ∈ (k, v) :: kvs, hasKey acc p.1 = false) →
        jsizeKvs ((k, v) :: kvs) ≤ n + 1 →
        parseObjElems n (dumpsPair (k, v) ++ (dumpsObjRest kvs ++ '}' :: rest)) acc
          = some (.obj (acc ++ (k, v) :: kvs), rest)) := by
  intro n
  induction n using Nat.strong_induction_on with
  | _ n ih =>
  refine ⟨?_, ?_, ?_⟩
  · -- parseVal reads back what dumps wrote
    intro v rest hwf hstop hsz
    obtain ⟨m, rfl⟩ : ∃ m, n = m + 1 := by
      have := jsize_pos v
      exact ⟨n - 1, by omega⟩
    cases v with
    | null =>
      rw [show dumps Json.null ++ rest = 'n' :: (['u', 'l', 'l'] ++ rest) from rfl,
        parseVal_succ_n]
      simp [expectChars_cons, expectChars_nil]
    | bool b =>
      cases b with
      | true =>
        rw [show dumps (Json.bool true) ++ rest = 't' :: (['r', 'u', 'e'] ++ rest) from rfl,
          parseVal_succ_t]
        simp [expectChars_cons, expectChars_nil]
      | false =>
        rw [show dumps (Json.bool false) ++ rest = 'f' :: (['a', 'l', 's', 'e'] ++ rest) from rfl,
          parseVal_succ_f]
        simp [expectChars_cons, expectChars_nil]
    | str s =>
      rw [show dumps (Json.str s) ++ rest = '"' :: (escape s ++ '"' :: rest) by simp [dumps],
        parseVal_succ_quote, parseStringBody_escape]
      rfl
    | intNum i =>
      by_cases hneg : i < 0
      · rw [show dumps (Json.intNum i) ++ rest = '-' :: (natToChars i.natAbs ++ rest) by
            simp [dumps, intToChars, hneg],
          parseVal_succ_minus, parseNumBody_int i.natAbs true hstop]
        have hcast : -((i.natAbs : Int)) = i := by omega
        rw [if_pos rfl, hcast]
      · obtain ⟨c, t, hct⟩ : ∃ c t, natToChars i.natAbs = c :: t := by
          cases hh : natToChars i.natAbs with
          | nil => exact absurd hh (natToChars_ne_nil _)
          | cons c t => exact ⟨c, t, rfl⟩
        have hdig : c.isDigit = true :=
          natToChars_all_digits i.natAbs c (by rw [hct]; exact List.mem_cons_self c t)
        rw [show dumps (Json.intNum i) ++ rest = c :: (t ++ rest) by
            rw [show dumps (Json.intNum i) = intToChars i from rfl]
            simp only [intToChars, if_neg hneg]
            rw [hct]
            rfl,
          parseVal_succ_digit m hdig,
          show (c :: (t ++ rest) : Str) = natToChars i.natAbs ++ rest by rw [hct]; rfl,
          parseNumBody_int i.natAbs false hstop]
        have hcast : ((i.natAbs : Int)) = i := by omega
        rw [if_neg (by simp), hcast]
    | floatNum mm e =>
      have he : 1 ≤ e := by simpa [wfB] using hwf
      have hb : mm.natAbs % 10 ^ e < 10 ^ e := Nat.mod_lt _ (by positivity)
      have hdm : mm.natAbs / 10 ^ e * 10 ^ e + mm.natAbs % 10 ^ e = mm.natAbs :=
        Nat.div_add_mod' _ _
      by_cases hneg : mm < 0
      · rw [show dumps (Json.floatNum mm e) ++ rest
              = '-' :: (natToChars (mm.natAbs / 10 ^ e)
                ++ '.' :: (padZeros e (natToChars (mm.natAbs % 10 ^ e)) ++ rest)) by
            rw [show dumps (Json.floatNum mm e) = floatToChars mm e from rfl]
            simp only [floatToChars, if_pos hneg]
            simp [List.append_assoc],
          parseVal_succ_minus,
          parseNumBody_float (mm.natAbs / 10 ^ e) (mm.natAbs % 10 ^ e) e true hb he hstop]
        have hcast : -((mm.natAbs / 10 ^ e * 10 ^ e + mm.natAbs % 10 ^ e : Nat) : Int) = mm := by
          rw [hdm]; omega
        rw [if_pos rfl, hcast]
      · obtain ⟨c, t, hct⟩ : ∃ c t, natToChars (mm.natAbs / 10 ^ e) = c :: t := by
          cases hh : natToChars (mm.natAbs / 10 ^ e) with
          | nil => exact absurd hh (natToChars_ne_nil _)
          | cons c t => exact ⟨c, t, rfl⟩
        have hdig : c.isDigit = true :=
          natToChars_all_digits _ c (by rw [hct]; exact List.mem_cons_self c t)
        rw [show dumps (Json.floatNum mm e) ++ rest
              = c :: (t ++ ('.' :: (padZeros e (natToChars (mm.natAbs % 10 ^ e)) ++ rest))) by
            rw [show dumps (Json.floatNum mm e) = floatToChars mm e from rfl]
            simp only [floatToChars, if_neg hneg]
            rw [hct]
            simp [List.append_assoc],
          parseVal_succ_digit m hdig,
          show (c :: (t ++ ('.' :: (padZeros e (natToChars (mm.natAbs % 10 ^ e)) ++ rest))) : Str)
              = natToChars (mm.natAbs / 10 ^ e)
                ++ '.' :: (padZeros e (natToChars (mm.natAbs % 10 ^ e)) ++ rest) by
            rw [hct]; rfl,
          parseNumBody_float (mm.natAbs / 10 ^ e) (mm.natAbs % 10 ^ e) e false hb he hstop]
        have hcast : ((mm.natAbs / 10 ^ e * 10 ^ e + mm.natAbs % 10 ^ e : Nat) : Int) = mm := by
          rw [hdm]; omega
        rw [if_neg (by simp), hcast]
    | arr xs =>
      cases xs with
      | nil =>
        rw [show dumps (Json.arr []) ++ rest = '[' :: (']' :: rest) from rfl,
          parseVal_succ_lbrack_close]
      | cons x xs =>
        obtain ⟨c, t, hct, hg⟩ := dumps_headGood x
        have hR : dumps x ++ (dumpsArrRest xs ++ ']' :: rest)
            = c :: (t ++ (dumpsArrRest xs ++ ']' :: rest)) := by
          rw [hct]; rfl
        rw [show dumps (Json.arr (x :: xs)) ++ rest
              = '[' :: (dumps x ++ (dumpsArrRest xs ++ ']' :: rest)) by simp [dumps],
          hR, parseVal_succ_lbrack_go m (goodStart_ne hg).1 (goodStart_not_ws hg), ← hR]
        have hwx : wfB x = true ∧ wfListB xs = true := by
          simpa [wfB, wfListB] using hwf
        have hszL : jsizeList (x :: xs) ≤ m + 1 := by
          simp only [jsize] at hsz
          omega
        rw [(ih m (by omega)).2.1 x xs [] rest (by simp [wfListB, hwx.1, hwx.2]) hszL]
        simp
    | obj kvs =>
      cases kvs with
      | nil =>
        rw [show dumps (Json.obj []) ++ rest = '{' :: ('}' :: rest) from rfl,
          parseVal_succ_lbrace_close]
      | cons kv kvs =>
        obtain ⟨k, v⟩ := kv
        have hR : dumpsPair (k, v) ++ (dumpsObjRest kvs ++ '}' :: rest)
            = '"' :: ((escape k ++ '"' :: ':' :: dumps v) ++ (dumpsObjRest kvs ++ '}' :: rest)) :=
          rfl
        rw [show dumps (Json.obj ((k, v) :: kvs)) ++ rest
              = '{' :: (dumpsPair (k, v) ++ (dumpsObjRest kvs ++ '}' :: rest)) by simp [dumps],
          hR, parseVal_succ_lbrace_go m (by decide) (by decide), ← hR]
        have hszK : jsizeKvs ((k, v) :: kvs) ≤ m + 1 := by
          simp only [jsize] at hsz
          omega
        rw [(ih m (by omega)).2.2 k v kvs [] rest (by simpa [wfB] using hwf)
          (fun p _ => rfl) hszK]
        simp
  · -- parseArrElems reads back a serialized element list
    intro x xs acc rest hwfl hsz
    have hjx := jsize_pos x
    have hjxs := jsizeList_pos xs
    obtain ⟨m, rfl⟩ : ∃ m, n = m + 1 := by
      refine ⟨n - 1, by simp only [jsizeList] at hsz; omega⟩
    have hwx : wfB x = true ∧ wfListB xs = true := by simpa [wfListB] using hwfl
    have hszx : jsize x ≤ m := by
      simp only [jsizeList] at hsz
      omega
    have hV := (ih m (by omega)).1 x (dumpsArrRest xs ++ ']' :: rest) hwx.1
      (stopOk_arrRest xs rest) hszx
    rw [parseArrElems.eq_def]
    simp only [hV]
    cases xs with
    | nil =>
      simp [dumpsArrRest, skipWs, List.dropWhile_cons, isJsonWs]
    | cons y ys =>
      have hA := (ih m (by omega)).2.1 y ys (acc ++ [x]) rest hwx.2
        (by simp only [jsizeList] at hsz ⊢; omega)
      simp only [dumpsArrRest, List.cons_append, List.append_assoc] at hA ⊢
      rw [skipWs_cons_of_not_ws _ (by decide)]
      simp only [hA]
      simp
  · -- parseObjElems reads back a serialized member list
    intro k v kvs acc rest hwfk hfresh hsz
    have hjv := jsize_pos v
    have hjkvs := jsizeKvs_pos kvs
    obtain ⟨m, rfl⟩ : ∃ m, n = m + 1 := by
      refine ⟨n - 1, by simp only [jsizeKvs] at hsz; omega⟩
    have hw : hasKey kvs k = false ∧ wfB v = true ∧ wfKvsB kvs = true := by
      simpa [wfKvsB, and_assoc] using hwfk
    have hszv : jsize v ≤ m := by
      simp only [jsizeKvs] at hsz
      omega
    have hV := (ih m (by omega)).1 v (dumpsObjRest kvs ++ '}' :: rest) hw.2.1
      (stopOk_objRest kvs rest) hszv
    rw [parseObjElems.eq_def]
    rw [show dumpsPair (k, v) ++ (dumpsObjRest kvs ++ '}' :: rest)
          = '"' :: (escape k ++ '"' :: (':' :: (dumps v ++ (dumpsObjRest kvs ++ '}' :: rest)))) by
        simp [dumpsPair, List.append_assoc]]
    have hs1 : ∀ X : Str, skipWs ('"' :: X) = '"' :: X :=
      fun X => skipWs_cons_of_not_ws _ (by decide)
    have hs2 : ∀ X : Str, skipWs (':' :: X) = ':' :: X :=
      fun X => skipWs_cons_of_not_ws _ (by decide)
    simp only [hs1, parseStringBody_escape, hs2, hV]
    have hsetKey : setKey acc k v = acc ++ [(k, v)] :=
      setKey_of_not_hasKey acc k v (hfresh (k, v) (List.mem_cons_self _ _))
    cases kvs with
    | nil =>
      simp [dumpsObjRest, skipWs, List.dropWhile_cons, isJsonWs, hsetKey]
    | cons kv1 kvs1 =>
      obtain ⟨k1, v1⟩ := kv1
      have hfresh1 : ∀ p ∈ (k1, v1) :: kvs1, hasKey (acc ++ [(k, v)]) p.1 = false := by
        intro p hp
        rw [hasKey_append]
        have h1 : hasKey acc p.1 = false := hfresh p (List.mem_cons_of_mem _ hp)
        have hk : p.1 ≠ k := (hasKey_eq_false_iff ((k1, v1) :: kvs1) k).mp hw.1 p hp
        have h2 : hasKey [(k, v)] p.1 = false := by
          simp [hasKey, Ne.symm hk]
        simp [h1, h2]
      have hO := (ih m (by omega)).2.2 k1 v1 kvs1 (acc ++ [(k, v)]) rest hw.2.2 hfresh1
        (by simp only [jsizeKvs] at hsz ⊢; omega)
      simp only [dumpsObjRest, List.cons_append, List.append_assoc] at hO ⊢
      rw [skipWs_cons_of_not_ws _ (by decide)]
      rw [hsetKey]
      simp only [hO]
      simp

end Json

namespace Json

theorem natToChars_length_pos (n : Nat) : 1 ≤ (natToChars n).length :=
  List.length_pos.mpr (natToChars_ne_nil n)

theorem intToChars_length_pos (i : Int) : 1 ≤ (intToChars i).length := by
  rw [intToChars]
  split
  · simp
  · exact natToChars_length_pos _

theorem floatToChars_length_pos (m : Int) (e : Nat) : 1 ≤ (floatToChars m e).length := by
  rw [floatToChars]
  have := natToChars_length_pos (m.natAbs / 10 ^ e)
  split <;> simp [List.length_append] <;> omega

mutual

theorem jsize_le_dumps : ∀ v : Json, jsize v ≤ 2 * (dumps v).length
  | .null => by simp [jsize, dumps]
  | .bool b => by cases b <;> simp [jsize, dumps]
  | .intNum i => by
    have := intToChars_length_pos i
    simp only [jsize, dumps]
    omega
  | .floatNum m e => by
    have := floatToChars_length_pos m e
    simp only [jsize, dumps]
    omega
  | .str s => by
    simp only [jsize, dumps, List.length_cons, List.length_append]
    omega
  | .arr [] => by simp [jsize, jsizeList, dumps]
  | .arr (x :: xs) => by
    have h1 := jsize_le_dumps x
    have h2 := jsizeList_le_dumps xs
    simp only [jsize, jsizeList, dumps, List.length_cons, List.length_append]
    omega
  | .obj [] => by simp [jsize, jsizeKvs, dumps]
  | .obj ((k, v) :: kvs) => by
    have h1 := jsize_le_dumps v
    have h2 := jsizeKvs_le_dumps kvs
    simp only [jsize, jsizeKvs, dumps, dumpsPair, List.length_cons, List.length_append]
    omega

theorem jsizeList_le_dumps : ∀ xs : List Json, jsizeList xs ≤ 2 * (dumpsArrRest xs).length + 2
  | [] => by simp [jsizeList, dumpsArrRest]
  | x :: xs => by
    have h1 := jsize_le_dumps x
    have h2 := jsizeList_le_dumps xs
    simp only [jsizeList, dumpsArrRest, List.length_cons, List.length_append]
    omega

theorem jsizeKvs_le_dumps : ∀ kvs : List (Str × Json),
    jsizeKvs kvs ≤ 2 * (dumpsObjRest kvs).length + 2
  | [] => by simp [jsizeKvs, dumpsObjRest]
  | (k, v) :: kvs => by
    have h1 := jsize_le_dumps v
    have h2 := jsizeKvs_le_dumps kvs
    simp only [jsizeKvs, dumpsObjRest, dumpsPair, List.length_cons, List.length_append]
    omega

end

/-- The serializer/parser round-trip: parsing serialized output recovers the
value exactly, for well-formed values. -/
theorem json_loads_dumps {v : Json} (hwf : wfB v = true) : json_loads (dumps v) = some v := by
  have hsz : jsize v ≤ 2 * (dumps v).length + 2 := le_trans (jsize_le_dumps v) (by omega)
  have h := (parse_dumps_main (2 * (dumps v).length + 2)).1 v [] hwf trivial hsz
  rw [json_loads]
  rw [show dumps v = dumps v ++ [] by simp] at h ⊢
  simp only [List.append_nil, List.length_append, List.length_nil] at h ⊢
  rw [h]
  simp [skipWs]


theorem wfListB_append {xs : List Json} {x : Json} (hxs : wfListB xs = true)
    (hx : wfB x = true) : wfListB (xs ++ [x]) = true := by
  induction xs with
  | nil => simp [wfListB, hx]
  | cons y ys ih =>
    simp only [wfListB, Bool.and_eq_true] at hxs
    simp only [List.cons_append, wfListB, Bool.and_eq_true]
    exact ⟨hxs.1, ih hxs.2⟩

theorem hasKey_setKey (kvs : List (Str × Json)) (k : Str) (v : Json) (x : Str) :
    hasKey (setKey kvs k v) x = (hasKey kvs x || decide (k = x)) := by
  induction kvs with
  | nil => simp [setKey, hasKey]
  | cons p rest ih =>
    obtain ⟨k0, v0⟩ := p
    have ih2 := ih
    simp only [hasKey] at ih2 ⊢
    by_cases h : k0 = k
    · subst h
      simp only [setKey, ite_true, if_true, List.any_cons]
      by_cases h2 : k0 = x <;> simp [h2]
    · simp only [setKey, h, ite_false, if_false, List.any_cons, ih2]
      by_cases h2 : k0 = x <;> simp [h2, Bool.or_assoc]

theorem wfKvsB_setKey {kvs : List (Str × Json)} (k : Str) {v : Json}
    (hk : wfKvsB kvs = true) (hv : wfB v = true) : wfKvsB (setKey kvs k v) = true := by
  induction kvs with
  | nil => simp [setKey, wfKvsB, hasKey, hv]
  | cons p rest ih =>
    obtain ⟨k0, v0⟩ := p
    simp only [wfKvsB, Bool.and_eq_true, Bool.not_eq_true', and_assoc] at hk
    obtain ⟨hk1, hk2, hk3⟩ := hk
    by_cases h : k0 = k
    · subst h
      simp only [setKey, ite_true, if_true, wfKvsB, Bool.and_eq_true, Bool.not_eq_true',
        and_assoc]
      exact ⟨hk1, hv, hk3⟩
    · simp only [setKey, h, ite_false, if_false, wfKvsB, Bool.and_eq_true, Bool.not_eq_true',
        and_assoc]
      refine ⟨?_, hk2, ih hk3⟩
      rw [hasKey_setKey]
      simp only [hk1, Bool.false_or, Bool.not_eq_true', decide_eq_false_iff_not]
      exact fun hh => h hh.symm

theorem parseNat_count_pos {s : Str} {b k : Nat} {r : Str}
    (h : parseNat s = some (b, k, r)) : 1 ≤ k := by
  simp only [parseNat] at h
  split at h
  · exact absurd h (by simp)
  · next hne =>
    simp only [Option.some.injEq, Prod.mk.injEq] at h
    obtain ⟨-, hk, -⟩ := h
    rw [← hk]
    rcases hh : s.takeWhile Char.isDigit with _ | ⟨c, t⟩
    · rw [hh] at hne; simp at hne
    · simp [hh]

theorem parseNumBody_wf {neg : Bool} {s : Str} {v : Json} {r : Str}
    (h : parseNumBody neg s = some (v, r)) : wfB v = true := by
  simp only [parseNumBody] at h
  split at h
  · exact absurd h (by simp)
  · next a cnt r0 heq =>
    split at h
    · next r2 =>
      split at h
      · exact absurd h (by simp)
      · next b k r3 heq2 =>
        simp only [Option.some.injEq, Prod.mk.injEq] at h
        obtain ⟨hv, -⟩ := h
        rw [← hv]
        have := parseNat_count_pos heq2
        simp [wfB]
        omega
    · simp only [Option.some.injEq, Prod.mk.injEq] at h
      obtain ⟨hv, -⟩ := h
      rw [← hv]
      simp [wfB]


theorem parse_wf : ∀ fuel : Nat,
    (∀ s v r, parseVal fuel s = some (v, r) → wfB v = true) ∧
    (∀ s acc v r, wfListB acc = true → parseArrElems fuel s acc = some (v, r) →
        wfB v = true) ∧
    (∀ s acc v r, wfKvsB acc = true → parseObjElems fuel s acc = some (v, r) →
        wfB v = true) := by
  intro fuel
  induction fuel with
  | zero =>
    refine ⟨?_, ?_, ?_⟩ <;> intro s
    · intro v r h; exact absurd h (by simp [parseVal])
    · intro acc v r hacc h; exact absurd h (by simp [parseArrElems])
    · intro acc v r hacc h; exact absurd h (by simp [parseObjElems])
  | succ fuel ih =>
    obtain ⟨ihV, ihA, ihO⟩ := ih
    refine ⟨?_, ?_, ?_⟩
    · intro s v r h
      rw [parseVal.eq_def] at h
      rcases hskip : skipWs s with _ | ⟨c, t⟩
      · simp [hskip] at h
      · simp only [hskip] at h
        split_ifs at h with h1 h2 h3 h4 h5 h6 h7 h8
        · split at h
          · simp only [Option.some.injEq, Prod.mk.injEq] at h
            rw [← h.1]
            simp [wfB, wfKvsB]
          · exact ihO _ _ _ _ (by simp [wfKvsB]) h
        · split at h
          · simp only [Option.some.injEq, Prod.mk.injEq] at h
            rw [← h.1]
            simp [wfB, wfListB]
          · exact ihA _ _ _ _ (by simp [wfListB]) h
        · rcases hsb : parseStringBody t with _ | ⟨k, r2⟩
          · simp [hsb] at h
          · simp only [hsb, Option.map, Option.some.injEq, Prod.mk.injEq] at h
            rw [← h.1]
            simp [wfB]
        · exact parseNumBody_wf h
        · exact parseNumBody_wf h
        · rcases he : expectChars ['r', 'u', 'e'] t with _ | r2
          · simp [he] at h
          · simp only [he, Option.map, Option.some.injEq, Prod.mk.injEq] at h
            rw [← h.1]
            simp [wfB]
        · rcases he : expectChars ['a', 'l', 's', 'e'] t with _ | r2
          · simp [he] at h
          · simp only [he, Option.map, Option.some.injEq, Prod.mk.injEq] at h
            rw [← h.1]
            simp [wfB]
        · rcases he : expectChars ['u', 'l', 'l'] t with _ | r2
          · simp [he] at h
          · simp only [he, Option.map, Option.some.injEq, Prod.mk.injEq] at h
            rw [← h.1]
            simp [wfB]
    · intro s acc v r hacc h
      rw [parseArrElems.eq_def] at h
      rcases hv : parseVal fuel s with _ | ⟨v1, r1⟩
      · simp [hv] at h
      · simp only [hv] at h
        have hwv1 : wfB v1 = true := ihV _ _ _ hv
        rcases hskip : skipWs r1 with _ | ⟨c, t⟩
        · simp [hskip] at h
        · simp only [hskip] at h
          split at h
          · exact ihA _ _ _ _ (wfListB_append hacc hwv1) h
          · simp only [Option.some.injEq, Prod.mk.injEq] at h
            rw [← h.1]
            simp only [wfB]
            exact wfListB_append hacc hwv1
          · exact absurd h (by simp)
    · intro s acc v r hacc h
      rw [parseObjElems.eq_def] at h
      rcases hskip : skipWs s with _ | ⟨c, t⟩
      · simp [hskip] at h
      · simp only [hskip] at h
        split at h
        · next r0 heq =>
          rcases hsb : parseStringBody r0 with _ | ⟨k, r2⟩
          · simp [hsb] at h
          · simp only [hsb] at h
            rcases hskip2 : skipWs r2 with _ | ⟨c2, t2⟩
            · simp [hskip2] at h
            · simp only [hskip2] at h
              split at h
              · next r3 heq2 =>
                rcases hv : parseVal fuel r3 with _ | ⟨v1, r4⟩
                · simp [hv] at h
                · simp only [hv] at h
                  have hwv1 : wfB v1 = true := ihV _ _ _ hv
                  rcases hskip3 : skipWs r4 with _ | ⟨c3, t3⟩
                  · simp [hskip3] at h
                  · simp only [hskip3] at h
                    split at h
                    · exact ihO _ _ _ _ (wfKvsB_setKey k hacc hwv1) h
                    · simp only [Option.some.injEq, Prod.mk.injEq] at h
                      rw [← h.1]
                      simp only [wfB]
                      exact wfKvsB_setKey k hacc hwv1
                    · exact absurd h (by simp)
              · exact absurd h (by simp)
        · exact absurd h (by simp)

end Json

namespace Json

/-- Values returned by `json_loads` are well-formed. -/
theorem json_loads_wf {s : Str} {v : Json} (h : json_loads s = some v) : wfB v = true := by
  rw [json_loads] at h
  rcases hp : parseVal (2 * s.length + 2) s with _ | ⟨v1, r⟩
  · rw [hp] at h; exact absurd h (by simp)
  · simp only [hp] at h
    have hw := (parse_wf (2 * s.length + 2)).1 s v1 r hp
    split_ifs at h
    · simp only [Option.some.injEq] at h
      rw [← h]
      exact hw

theorem parseObjElems_is_obj : ∀ fuel s acc v r,
    parseObjElems fuel s acc = some (v, r) → ∃ kvs, v = obj kvs := by
  intro fuel
  induction fuel with
  | zero =>
    intro s acc v r h
    exact absurd h (by simp [parseObjElems])
  | succ fuel ih =>
    intro s acc v r h
    rw [parseObjElems.eq_def] at h
    rcases hskip : skipWs s with _ | ⟨c, t⟩
    · simp [hskip] at h
    · simp only [hskip] at h
      split at h
      · next r0 heq =>
        rcases hsb : parseStringBody r0 with _ | ⟨k, r2⟩
        · simp [hsb] at h
        · simp only [hsb] at h
          rcases hskip2 : skipWs r2 with _ | ⟨c2, t2⟩
          · simp [hskip2] at h
          · simp only [hskip2] at h
            split at h
            · next r3 heq2 =>
              rcases hv : parseVal fuel r3 with _ | ⟨v1, r4⟩
              · simp [hv] at h
              · simp only [hv] at h
                rcases hskip3 : skipWs r4 with _ | ⟨c3, t3⟩
                · simp [hskip3] at h
                · simp only [hskip3] at h
                  split at h
                  · exact ih _ _ _ _ h
                  · simp only [Option.some.injEq, Prod.mk.injEq] at h
                    exact ⟨_, h.1.symm⟩
                  · exact absurd h (by simp)
            · exact absurd h (by simp)
      · exact absurd h (by simp)

/-- A successful parse of input whose first character is `{` is an object. -/
theorem json_loads_lbrace_obj {t : Str} {v : Json}
    (h : json_loads ('{' :: t) = some v) : ∃ kvs, v = obj kvs := by
  rw [json_loads] at h
  rcases hp : parseVal (2 * ('{' :: t).length + 2) ('{' :: t) with _ | ⟨v1, r⟩
  · rw [hp] at h; exact absurd h (by simp)
  · simp only [hp] at h
    split_ifs at h
    simp only [Option.some.injEq] at h
    subst h
    obtain ⟨m, hm⟩ : ∃ m, 2 * ('{' :: t).length + 2 = m + 1 :=
      ⟨2 * ('{' :: t).length + 1, by omega⟩
    rw [hm, parseVal.eq_def] at hp
    have hs0 : skipWs ('{' :: t) = '{' :: t := skipWs_cons_of_not_ws _ (by decide)
    simp only [hs0] at hp
    simp only [if_true, ite_true] at hp
    rcases hskip : skipWs t with _ | ⟨c2, t2⟩
    · simp only [hskip] at hp
      exact parseObjElems_is_obj _ _ _ _ _ hp
    · simp only [hskip] at hp
      split at hp
      · simp only [Option.some.injEq, Prod.mk.injEq] at hp
        exact ⟨[], hp.1.symm⟩
      · exact parseObjElems_is_obj _ _ _ _ _ hp

theorem rfindIdx_concat (c : Char) (l : Str) : PyStr.rfindIdx c (l ++ [c]) = some l.length := by
  induction l with
  | nil => simp [PyStr.rfindIdx]
  | cons a rest ih => simp [PyStr.rfindIdx, ih]

end Json

/-! ## Python dynamic-value operations used by the embedded code -/

namespace Py

/-- Python exception kinds raised by the embedded code. -/
inductive Err where
  | attributeError : Err
  | typeError : Err
deriving DecidableEq

/-- Python truthiness of an embedded value. -/
def truthy : Json → Bool
  | .null => false
  | .bool b => b
  | .intNum n => decide (n ≠ 0)
  | .floatNum m _ => decide (m ≠ 0)
  | .str [] => false
  | .str (_ :: _) => true
  | .arr [] => false
  | .arr (_ :: _) => true
  | .obj [] => false
  | .obj (_ :: _) => true

/-- Python `len(v)`: defined on lists, strings and dicts, `TypeError`
otherwise. -/
def pyLen : Json → Except Err Nat
  | .arr l => .ok l.length
  | .str s => .ok s.length
  | .obj kvs => .ok kvs.length
  | _ => .error .typeError

/-- Python `v.get(k, dflt)`: dict lookup with default; `AttributeError` on any
non-dict value. -/
def pyGet (v : Json) (k : Str) (dflt : Json) : Except Err Json :=
  match v with
  | .obj kvs => .ok ((Json.lookup kvs k).getD dflt)
  | _ => .error .attributeError

/-- Python iteration `for x in v`: list elements, string characters, or dict
keys; `TypeError` otherwise. -/
def pyIter : Json → Except Err (List Json)
  | .arr l => .ok l
  | .str s => .ok (s.map (fun c => .str [c]))
  | .obj kvs => .ok ((Json.keys kvs).map .str)
  | _ => .error .typeError

/-- Python `v.lower()`: `AttributeError` off strings. -/
def pyLower : Json → Except Err Str
  | .str s => .ok (PyStr.lower s)
  | _ => .error .attributeError

/-- The numeric value of a Python number (`bool` is an `int` in Python). -/
def pyNumVal : Json → Option Rat
  | .intNum n => some (n : Rat)
  | .floatNum m e => some ((m : Rat) / 10 ^ e)
  | .bool b => some (if b then 1 else 0)
  | _ => none

/-- Python `v < q` against a numeric literal: `TypeError` for non-numbers. -/
def pyLt (v : Json) (q : Rat) : Except Err Bool :=
  match pyNumVal v with
  | some x => .ok (decide (x < q))
  | none => .error .typeError

/-- Python `float(str)` for plain decimal literals (scientific notation,
`inf`/`nan` and underscore separators are not modelled; see the header). -/
def parseFloatStr (s : Str) : Option Json :=
  let s1 := PyStr.strip s
  let negs : Bool × Str :=
    match s1 with
    | '-' :: r => (true, r)
    | '+' :: r => (false, r)
    | _ => (false, s1)
  let neg := negs.1
  let s2 := negs.2
  let ds := s2.takeWhile Char.isDigit
  let signed : Int → Int := fun x => if neg then -x else x
  match s2.dropWhile Char.isDigit with
  | [] =>
    if ds.isEmpty then none
    else some (.floatNum (signed (Json.digitsVal ds * 10 : Nat)) 1)
  | '.' :: fr =>
    let fs := fr.takeWhile Char.isDigit
    if (fr.dropWhile Char.isDigit).isEmpty && !(ds.isEmpty && fs.isEmpty) then
      if fs.isEmpty then some (.floatNum (signed (Json.digitsVal ds * 10 : Nat)) 1)
      else some (.floatNum (signed ((Json.digitsVal ds * 10 ^ fs.length
        + Json.digitsVal fs : Nat))) (max fs.length 1))
    else none
  | _ => none

/-- Python `float(v)`: `none` models the raised `ValueError`/`TypeError`. -/
def pyFloat : Json → Option Json
  | .intNum n => some (.floatNum (n * 10) 1)
  | .floatNum m e => some (.floatNum m e)
  | .bool b => some (.floatNum (if b then 10 else 0) 1)
  | .str s => parseFloatStr s
  | _ => none

/-- `float(v)` under the source's `except (ValueError, TypeError): 0.0`. -/
def pyFloatOr0 (v : Json) : Json := (pyFloat v).getD (.floatNum 0 1)

theorem parseFloatStr_wf {s : Str} {w : Json} (h : parseFloatStr s = some w) :
    Json.wfB w = true ∧ ∃ m e, w = .floatNum m e := by
  rw [parseFloatStr] at h
  simp only at h
  split at h <;> try split_ifs at h
  all_goals first
    | (simp only [Option.some.injEq] at h
       rw [← h]
       refine ⟨?_, _, _, rfl⟩
       simp only [Json.wfB, decide_eq_true_eq]
       omega)
    | simp at h

theorem pyFloat_wf {v w : Json} (hv : Json.wfB v = true) (h : pyFloat v = some w) :
    Json.wfB w = true ∧ ∃ m e, w = .floatNum m e := by
  cases v with
  | intNum n =>
    simp only [pyFloat, Option.some.injEq] at h
    subst h
    exact ⟨by simp [Json.wfB], _, _, rfl⟩
  | floatNum m e =>
    simp only [pyFloat, Option.some.injEq] at h
    subst h
    exact ⟨hv, _, _, rfl⟩
  | bool b =>
    simp only [pyFloat, Option.some.injEq] at h
    subst h
    exact ⟨by simp [Json.wfB], _, _, rfl⟩
  | str s => exact parseFloatStr_wf h
  | null => simp [pyFloat] at h
  | arr l => simp [pyFloat] at h
  | obj kvs => simp [pyFloat] at h

theorem pyFloatOr0_wf {v : Json} (hv : Json.wfB v = true) :
    Json.wfB (pyFloatOr0 v) = true ∧ ∃ m e, pyFloatOr0 v = .floatNum m e := by
  rw [pyFloatOr0]
  rcases h : pyFloat v with _ | w
  · exact ⟨by simp [Json.wfB], _, _, rfl⟩
  · simpa using pyFloat_wf hv h

end Py

/-! ## Embedding of the three response normalizers (`_parse_response`)

Each tool locates the first `{` and last `}` of the model response
(`response_text.find('{')`, `response_text.rfind('}')`), parses the bounded
slice, and post-processes.  `extractJsonSub` returns `none` exactly when the
source raises its "No JSON found in response" `ValueError` (first index
missing or `end_idx == 0`), which every variant catches. -/

/-- The Python slice `response_text[start_idx:end_idx]` guarded by the
`start_idx == -1 or end_idx == 0` check. -/
def extractJsonSub (s : Str) : Option Str :=
  match PyStr.findIdx '{' s, PyStr.rfindIdx '}' s with
  | some i, some j => some ((s.drop i).take (j + 1 - i))
  | _, _ => none

theorem findIdx_drop {c : Char} {s : Str} {i : Nat} (h : PyStr.findIdx c s = some i) :
    ∃ t, s.drop i = c :: t := by
  induction s generalizing i with
  | nil => simp [PyStr.findIdx] at h
  | cons a rest ih =>
    rw [PyStr.findIdx] at h
    split_ifs at h with ha
    · simp only [Option.some.injEq] at h
      subst ha
      rw [← h]
      exact ⟨rest, rfl⟩
    · rcases hr : PyStr.findIdx c rest with _ | j
      · rw [hr] at h; simp at h
      · rw [hr] at h
        simp only [Option.map, Option.some.injEq] at h
        obtain ⟨t, ht⟩ := ih hr
        refine ⟨t, ?_⟩
        rw [← h]
        simpa using ht

/-- When both braces are found, the extracted slice starts with `{` (or is
empty, when the last `}` precedes the first `{`). -/
theorem extractJsonSub_head {s js : Str} (h : extractJsonSub s = some js) :
    js = [] ∨ ∃ t, js = '{' :: t := by
  rw [extractJsonSub] at h
  rcases hf : PyStr.findIdx '{' s with _ | i
  · rw [hf] at h; simp at h
  · rcases hr : PyStr.rfindIdx '}' s with _ | j
    · rw [hf, hr] at h; simp at h
    · rw [hf, hr] at h
      simp only [Option.some.injEq] at h
      obtain ⟨t, ht⟩ := findIdx_drop hf
      rcases hn : j + 1 - i with _ | n
      · left; rw [← h, hn]; simp
      · right
        rw [← h, hn, ht]
        exact ⟨t.take n, rfl⟩

namespace ProfileExtractorTool

/-- The `required_fields` list of `ProfileExtractorTool._parse_response`. -/
def required_fields : List Str :=
  ["personal_info".data, "skills".data, "experience".data, "education".data,
   "certifications".data, "languages".data, "summary".data,
   "total_experience_years".data, "key_achievements".data]

/-- Default injected for a missing field: `{}` for `personal_info`/`skills`,
`[]` otherwise. -/
def fieldDefault (f : Str) : Json :=
  if f = "personal_info".data ∨ f = "skills".data then .obj [] else .arr []

/-- The `for field in required_fields: if field not in parsed_data: ...` loop. -/
def injectDefaults (kvs : List (Str × Json)) : List (Str × Json) :=
  required_fields.foldl
    (fun acc f => if Json.hasKey acc f then acc else Json.setKey acc f (fieldDefault f)) kvs

/-- The numeric-coercion step for `total_experience_years`. -/
def coerceYears (kvs : List (Str × Json)) : List (Str × Json) :=
  if Json.hasKey kvs "total_experience_years".data then
    Json.setKey kvs "total_experience_years".data
      (Py.pyFloatOr0 ((Json.lookup kvs "total_experience_years".data).getD .null))
  else kvs

/-- Embedding of `ProfileExtractorTool._parse_response`.  `none` models an
uncaught exception (unreachable in fact: a successfully parsed slice always
denotes an object, because it starts with `{`). -/
def parse_response (response_text : Str) : Option Str :=
  match extractJsonSub response_text with
  | none => some response_text
  | some json_str =>
    match Json.json_loads json_str with
    | none => some response_text
    | some (.obj kvs) => some (Json.dumps (.obj (coerceYears (injectDefaults kvs))))
    | some _ => none

end ProfileExtractorTool

namespace CareerRecommenderTool

/-- The `required_fields` list of `CareerRecommenderTool._parse_response`. -/
def required_fields : List Str :=
  ["primary_role".data, "alternative_roles".data, "confidence_score".data,
   "reasoning".data, "required_skills".data, "skill_gaps".data,
   "salary_range".data, "growth_potential".data, "industry_demand".data]

/-- Embedding of `CareerRecommenderTool._parse_response`.  The source raises
`ValueError` at the first missing required field and catches it, returning the
raw text; that is observationally `if all fields present then dumps else raw`. -/
def parse_response (response_text : Str) : Option Str :=
  match extractJsonSub response_text with
  | none => some response_text
  | some json_str =>
    match Json.json_loads json_str with
    | none => some response_text
    | some (.obj kvs) =>
      if required_fields.all (fun f => Json.hasKey kvs f) then
        some (Json.dumps (.obj kvs))
      else
        some response_text
    | some _ => none

end CareerRecommenderTool

namespace QuestionGeneratorTool

/-- The `required_fields` list of `QuestionGeneratorTool._parse_response`. -/
def required_fields : List Str :=
  ["questions".data, "total_questions".data, "estimated_duration".data,
   "difficulty_distribution".data, "category_distribution".data]

/-- The per-question required fields. -/
def question_fields : List Str :=
  ["question".data, "category".data, "difficulty".data, "purpose".data,
   "expected_answer_type".data]

/-- Default injected for a missing top-level field. -/
def fieldDefault (f : Str) : Json :=
  if f = "questions".data then .arr []
  else if f = "difficulty_distribution".data ∨ f = "category_distribution".data then .obj []
  else .intNum 0

/-- The top-level default-injection loop. -/
def injectDefaults (kvs : List (Str × Json)) : List (Str × Json) :=
  required_fields.foldl
    (fun acc f => if Json.hasKey acc f then acc else Json.setKey acc f (fieldDefault f)) kvs

/-- The per-question fixup: non-dict entries are skipped (`continue`), dict
entries get `"Not specified"` for each missing question field. -/
def fixQuestion (q : Json) : Json :=
  match q with
  | .obj kvs =>
    .obj (question_fields.foldl
      (fun acc f => if Json.hasKey acc f then acc
                    else Json.setKey acc f (.str "Not specified".data)) kvs)
  | _ => q

/-- The question-structure validation pass (guarded by
`isinstance(parsed_data["questions"], list)`). -/
def fixQuestions (kvs : List (Str × Json)) : List (Str × Json) :=
  match Json.lookup kvs "questions".data with
  | some (.arr qs) => Json.setKey kvs "questions".data (.arr (qs.map fixQuestion))
  | _ => kvs

/-- The line-splitting fallback `QuestionSet` built when structured parsing
fails entirely. -/
def fallbackQuestions (response_text : Str) : List Json :=
  ((PyStr.splitLines (PyStr.strip response_text)).take 15).filterMap
    (fun line =>
      if (PyStr.strip line).isEmpty then none
      else some (.obj
        [("question".data, .str (PyStr.strip line)),
         ("category".data, .str "General".data),
         ("difficulty".data, .str "Medium".data),
         ("purpose".data, .str "General assessment".data),
         ("expected_answer_type".data, .str "Detailed response".data)]))

/-- The complete fallback object (`fallback_data` in the source). -/
def fallbackData (response_text : Str) : Json :=
  let questions := fallbackQuestions response_text
  .obj
    [("questions".data, .arr questions),
     ("total_questions".data, .intNum questions.length),
     ("estimated_duration".data, .intNum (questions.length * 4)),
     ("difficulty_distribution".data, .obj [("Medium".data, .intNum questions.length)]),
     ("category_distribution".data, .obj [("General".data, .intNum questions.length)])]

/-- Embedding of `QuestionGeneratorTool._parse_response`.  `none` models the
uncaught `TypeError` raised by `len(...)` when the `questions` value supports
no `len` (not caught by the `except (JSONDecodeError, ValueError)` clause). -/
def parse_response (response_text : Str) : Option Str :=
  match extractJsonSub response_text with
  | none => some (Json.dumps (fallbackData response_text))
  | some json_str =>
    match Json.json_loads json_str with
    | none => some (Json.dumps (fallbackData response_text))
    | some (.obj kvs) =>
      let kvs2 := fixQuestions (injectDefaults kvs)
      match Py.pyLen ((Json.lookup kvs2 "questions".data).getD (.arr [])) with
      | .error _ => none
      | .ok n => some (Json.dumps (.obj (Json.setKey kvs2 "total_questions".data (.intNum n))))
    | some _ => none

end QuestionGeneratorTool

/-! ## Embedding of `PDFConverterTool` and `EnhancedCVAgent` -/

namespace PDFConverterTool

/-- Embedding of `PDFConverterTool._convert_pdf_sync`.  `pathExists` is the
`os.path.exists(pdf_path)` check; `conv` is the outcome of the `MarkItDown`
collaborator (`.ok md` = the extracted markdown text obtained from
`text_content`/`str(result)`, `.error e` = an exception with text `e`). -/
def convert_pdf_sync (pathExists : Bool) (conv : Except Str Str) (pdf_path : Str) : Str :=
  if !pathExists then
    "❌ Error: PDF file not found at '".data ++ pdf_path ++ "'".data
  else
    match conv with
    | .error e => "❌ Error during PDF to Markdown conversion: ".data ++ e
    | .ok md =>
      if (PyStr.strip md).isEmpty then "⚠️ No text was extracted from the PDF.".data
      else PyStr.strip md

/-- Embedding of `PDFConverterTool._run`. -/
def run (pathExists : Bool) (conv : Except Str Str) (pdf_path : Str) : Str :=
  convert_pdf_sync pathExists conv pdf_path

end PDFConverterTool

namespace EnhancedCVAgent

/-- Embedding of `EnhancedCVAgent._parse_json_safely`: the parsed value, or
the original string when parsing fails. -/
def parse_json_safely (s : Str) : Sum Json Str :=
  match Json.json_loads s with
  | some v => .inl v
  | none => .inr s

/-- Embedding of `EnhancedCVAgent._calculate_profile_completeness`.  The
Python `round(x, 1)` is exact here: the quotient is a multiple of 25. -/
def calculate_profile_completeness (profile : Sum Json Str) : Rat :=
  match profile with
  | .inl (.obj kvs) =>
    let fields := ["personal_info".data, "skills".data, "experience".data, "education".data]
    let present := (fields.filter
      (fun f => Py.truthy ((Json.lookup kvs f).getD .null))).length
    (present : Rat) / 4 * 100
  | _ => 0

/-- Embedding of `EnhancedCVAgent._calculate_skill_diversity`. -/
def calculate_skill_diversity (profile : Sum Json Str) : Nat :=
  match profile with
  | .inl (.obj kvs) =>
    match (Json.lookup kvs "skills".data).getD (.obj []) with
    | .obj skills =>
      (skills.map (fun p => match p.2 with
        | .arr l => l.length
        | _ => 0)).sum
    | _ => 0
  | _ => 0

/-- Embedding of `EnhancedCVAgent._assess_experience_level`.  The comparisons
`years < 2` can raise `TypeError` for a non-numeric `years` value. -/
def assess_experience_level (profile : Sum Json Str) : Except Py.Err Str :=
  match profile with
  | .inl (.obj kvs) =>
    let years := (Json.lookup kvs "total_experience_years".data).getD (.intNum 0)
    match Py.pyLt years 2 with
    | .error e => .error e
    | .ok true => .ok "entry".data
    | .ok false =>
      match Py.pyLt years 5 with
      | .error e => .error e
      | .ok true => .ok "junior".data
      | .ok false =>
        match Py.pyLt years 10 with
        | .error e => .error e
        | .ok true => .ok "mid".data
        | .ok false => .ok "senior".data
  | _ => .ok "unknown".data

/-- Embedding of `EnhancedCVAgent._extract_career_confidence`: the raw value
of `confidence_score` (any embedded value), `0.0` when absent or when the
input is not a dict. -/
def extract_career_confidence (career : Sum Json Str) : Json :=
  match career with
  | .inl (.obj kvs) => (Json.lookup kvs "confidence_score".data).getD (.floatNum 0 1)
  | _ => .floatNum 0 1

/-- Embedding of `EnhancedCVAgent._count_recommendations` (`len` of a truthy
non-sized `alternative_roles` raises `TypeError`). -/
def count_recommendations (career : Sum Json Str) : Except Py.Err Nat :=
  match career with
  | .inl (.obj kvs) =>
    let alternatives := (Json.lookup kvs "alternative_roles".data).getD (.arr [])
    if Py.truthy alternatives then
      match Py.pyLen alternatives with
      | .ok n => .ok (1 + n)
      | .error e => .error e
    else .ok 1
  | _ => .ok 0

/-- The quick-analytics block of a successful run. -/
structure QuickAnalytics where
  profile_completeness : Rat
  skill_diversity : Nat
  experience_level : Str
  career_confidence : Json
  recommendations_count : Nat

/-- Embedding of `EnhancedCVAgent._generate_quick_analytics`: any exception in
a component yields the `{"error": "Analytics generation failed"}` block. -/
def generate_quick_analytics (profile_data career_data : Str) : Sum QuickAnalytics Str :=
  let profile := parse_json_safely profile_data
  let career := parse_json_safely career_data
  match assess_experience_level profile, count_recommendations career with
  | .ok lvl, .ok cnt =>
    .inl { profile_completeness := calculate_profile_completeness profile,
           skill_diversity := calculate_skill_diversity profile,
           experience_level := lvl,
           career_confidence := extract_career_confidence career,
           recommendations_count := cnt }
  | _, _ => .inr "Analytics generation failed".data

/-- The result envelope of `process_cv_comprehensive`.  Wall-clock quantities
(`processing_time`, `timestamp`) are threaded through as the opaque parameter
`elapsed`; their measurement is not modelled. -/
structure PipelineResult where
  file_path : Str
  processing_time : Rat
  status : Str
  info_error : Option Str
  raw_text : Option Str
  profile_analysis : Option (Sum Json Str)
  career_recommendations : Option (Sum Json Str)
  interview_questions : Option (Sum Json Str)
  analytics : Option (Sum QuickAnalytics Str)
  error : Option Str

/-- The failure envelope built by the `except` clause of
`process_cv_comprehensive`. -/
def failedResult (file_path : Str) (elapsed : Rat) (msg : Str) : PipelineResult :=
  { file_path := file_path, processing_time := elapsed, status := "failed".data,
    info_error := some msg, raw_text := none, profile_analysis := none,
    career_recommendations := none, interview_questions := none,
    analytics := none, error := some msg }

/-- Embedding of `EnhancedCVAgent.process_cv_comprehensive`.

The document extractor inputs (`pathExists`, `conv`) feed the embedded
`PDFConverterTool.run`.  Stages 2-4 are oracles for the three tool calls
(`profile_tool._run`, `career_tool._run`, `question_tool._run`): `.ok s` is a
returned string and `.error e` an exception with message `str(e) = e`, caught
by the top-level `except Exception` clause.  Database persistence
(`db_session=None` path) and logging are not modelled. -/
def process_cv_comprehensive (pathExists : Bool) (conv : Except Str Str)
    (stage2 stage3 : Str → Except Str Str) (stage4 : Str → Str → Str → Except Str Str)
    (file_path target_role difficulty_level : Str) (elapsed : Rat) : PipelineResult :=
  let raw_text := PDFConverterTool.run pathExists conv file_path
  if PyStr.containsSub "Error".data raw_text then
    failedResult file_path elapsed ("PDF extraction failed: ".data ++ raw_text)
  else
    match stage2 raw_text with
    | .error e => failedResult file_path elapsed e
    | .ok profile_data =>
      match stage3 profile_data with
      | .error e => failedResult file_path elapsed e
      | .ok career_recommendations =>
        match stage4 profile_data target_role difficulty_level with
        | .error e => failedResult file_path elapsed e
        | .ok interview_questions =>
          { file_path := file_path, processing_time := elapsed,
            status := "completed".data, info_error := none,
            raw_text := some raw_text,
            profile_analysis := some (parse_json_safely profile_data),
            career_recommendations := some (parse_json_safely career_recommendations),
            interview_questions := some (parse_json_safely interview_questions),
            analytics := some (generate_quick_analytics profile_data career_recommendations),
            error := none }

end EnhancedCVAgent

/-! ## Embedding of `AnalyticsService`

The service is read-side: rows are the relevant columns of `CVAnalysis`
records as JSON column values (`Json.null` embeds SQL `NULL`/Python `None`).
`month_key` is the value of `created_at.strftime("%Y-%m")`; the datetime
itself is not modelled, only its canonical `YYYY-MM` bucket key. -/

structure CVAnalysisRow where
  skills : Json
  extracted_profile : Json
  month_key : Str

namespace AnalyticsService

/-- Result shape of `AnalyticsService._analyze_skills`. -/
structure SkillsAnalysis where
  total_skills : Nat
  skill_categories : Json
  technical_skills_count : Nat
  soft_skills_count : Nat

/-- The conditional expression
`cv_analysis.extracted_profile.get('skills', ...) if cv_analysis.extracted_profile else ...`
of `_analyze_skills` (both defaults are the empty dict). -/
def profileSkillsExpr (ep : Json) : Except Py.Err Json :=
  if Py.truthy ep then Py.pyGet ep "skills".data (.obj []) else pure (.obj [])

/-- Embedding of `AnalyticsService._analyze_skills`. -/
def analyze_skills (cv : CVAnalysisRow) : Except Py.Err SkillsAnalysis := do
  let skills := if Py.truthy cv.skills then cv.skills else .arr []
  let profile_skills ← profileSkillsExpr cv.extracted_profile
  let total ← Py.pyLen skills
  let tech ← Py.pyGet profile_skills "technical".data (.arr [])
  let techCount ← Py.pyLen tech
  let soft ← Py.pyGet profile_skills "soft_skills".data (.arr [])
  let softCount ← Py.pyLen soft
  pure ⟨total, profile_skills, techCount, softCount⟩

/-- Embedding of `AnalyticsService._generate_improvement_suggestions`. -/
def generate_improvement_suggestions (cv : CVAnalysisRow) : Except Py.Err (List Str) := do
  let profile := if Py.truthy cv.extracted_profile then cv.extracted_profile else .obj []
  let skills ← Py.pyGet profile "skills".data (.obj [])
  let tech ← Py.pyGet skills "technical".data (.arr [])
  let s1 := if !Py.truthy tech then
    ["Consider adding more technical skills to your profile".data] else []
  let certs ← Py.pyGet profile "certifications".data (.arr [])
  let s2 := if !Py.truthy certs then
    ["Professional certifications could strengthen your profile".data] else []
  let langs ← Py.pyGet profile "languages".data (.arr [])
  let n ← Py.pyLen langs
  let s3 := if n < 2 then ["Additional language skills could be valuable".data] else []
  pure (s1 ++ s2 ++ s3)

/-- Insertion-ordered frequency bump (`d[k] = d.get(k, 0) + 1`). -/
def bump (freq : List (Str × Nat)) (k : Str) : List (Str × Nat) :=
  match freq with
  | [] => [(k, 1)]
  | (k0, n) :: rest => if k0 = k then (k0, n + 1) :: rest else (k0, n) :: bump rest k

/-- Bump inside a nested `category → skill → count` table (category assumed
present). -/
def bumpCat (cats : List (Str × List (Str × Nat))) (c k : Str) :
    List (Str × List (Str × Nat)) :=
  match cats with
  | [] => [(c, [(k, 1)])]
  | (c0, t) :: rest => if c0 = c then (c0, bump t k) :: rest else (c0, t) :: bumpCat rest c k

/-- The `if cv.skills: for skill in cv.skills: ...` frequency pass of
`get_skill_analytics`. -/
def skillFreqPass (freq : List (Str × Nat)) (skills : Json) :
    Except Py.Err (List (Str × Nat)) := do
  if Py.truthy skills then
    let items ← Py.pyIter skills
    items.foldlM (fun f skill => do
      let low ← Py.pyLower skill
      pure (bump f low)) freq
  else
    pure freq

/-- The `isinstance`-guarded category pass of `get_skill_analytics`. -/
def skillCatPass (cats : List (Str × List (Str × Nat))) (cv : CVAnalysisRow) :
    Except Py.Err (List (Str × List (Str × Nat))) :=
  match cv.extracted_profile with
  | .obj kvs =>
    if Py.truthy (Json.obj kvs) then
      match (Json.lookup kvs "skills".data).getD (.obj []) with
      | .obj pk =>
        pk.foldlM (fun cs p =>
          match p.2 with
          | .arr l =>
            let cs1 := if cs.any (fun q => q.1 = p.1) then cs else cs ++ [(p.1, [])]
            l.foldlM (fun cs2 skill => do
              let low ← Py.pyLower skill
              pure (bumpCat cs2 p.1 low)) cs1
          | _ => pure cs) cats
      | _ => pure cats
    else
      pure cats
  | _ => pure cats

/-- The aggregation loop of `AnalyticsService.get_skill_analytics` (the
frequency table and the nested category table; the function additionally calls
`_calculate_skill_distribution`, `_identify_trending_skills` and
`_identify_skill_gaps`, which are not defined anywhere in the repository
sources). -/
def skill_analytics_core (rows : List CVAnalysisRow) :
    Except Py.Err (List (Str × Nat) × List (Str × List (Str × Nat))) :=
  rows.foldlM (fun st cv => do
    let freq ← skillFreqPass st.1 cv.skills
    let cats ← skillCatPass st.2 cv
    pure (freq, cats)) ([], [])

/-- The month-bucketing loop of `AnalyticsService._get_skill_trends`. -/
def skill_trends_buckets (rows : List CVAnalysisRow) :
    Except Py.Err (List (Str × List (Str × Nat))) :=
  rows.foldlM (fun monthly cv => do
    let monthly1 :=
      if monthly.any (fun q => q.1 = cv.month_key) then monthly
      else monthly ++ [(cv.month_key, [])]
    if Py.truthy cv.skills then
      let items ← Py.pyIter cv.skills
      items.foldlM (fun m skill => do
        let low ← Py.pyLower skill
        pure (bumpCat m cv.month_key low)) monthly1
    else
      pure monthly1) []

end AnalyticsService

namespace AnalyticsService

/-- Lexicographic strict order on character lists (month keys such as
"2024-07" compare chronologically under this order). -/
def strLt : Str → Str → Bool
  | [], [] => false
  | [], _ :: _ => true
  | _ :: _, [] => false
  | a :: as, b :: bs => if a < b then true else if b < a then false else strLt as bs

/-- Lexicographic order, reflexive closure. -/
def strLe (x y : Str) : Bool := strLt x y || decide (x = y)

theorem strLt_irrefl (x : Str) : strLt x x = false := by
  induction x with
  | nil => rfl
  | cons a as ih => simp [strLt, ih]

theorem strLe_refl (x : Str) : strLe x x = true := by
  simp [strLe]

theorem strLt_asymm : ∀ x y : Str, strLt x y = true → strLt y x = false
  | [], [] => by simp [strLt]
  | [], _ :: _ => by simp [strLt]
  | _ :: _, [] => by simp [strLt]
  | a :: as, b :: bs => by
    intro h
    rw [strLt] at h ⊢
    by_cases hab : a < b
    · have h1 : ¬ b < a := lt_asymm hab
      simp [hab, h1]
    · by_cases hba : b < a
      · simp [hab, hba] at h
      · simp only [hab, hba, if_false] at h
        simp [hab, hba, strLt_asymm as bs h]

theorem strLe_total : ∀ x y : Str, strLe x y = true ∨ strLe y x = true
  | [], [] => Or.inl (strLe_refl [])
  | [], _ :: _ => Or.inl (by simp [strLe, strLt])
  | _ :: _, [] => Or.inr (by simp [strLe, strLt])
  | a :: as, b :: bs => by
    rcases lt_trichotomy a b with hab | hab | hab
    · exact Or.inl (by simp [strLe, strLt, hab])
    · subst hab
      rcases strLe_total as bs with h | h
      · refine Or.inl ?_
        simp only [strLe, strLt, lt_irrefl, if_false, Bool.or_eq_true,
          decide_eq_true_eq] at h ⊢
        rcases h with h | h
        · exact Or.inl h
        · exact Or.inr (by rw [h])
      · refine Or.inr ?_
        simp only [strLe, strLt, lt_irrefl, if_false, Bool.or_eq_true,
          decide_eq_true_eq] at h ⊢
        rcases h with h | h
        · exact Or.inl h
        · exact Or.inr (by rw [h])
    · exact Or.inr (by simp [strLe, strLt, hab])

theorem strLe_antisymm {x y : Str} (h1 : strLe x y = true) (h2 : strLe y x = true) :
    x = y := by
  simp only [strLe, Bool.or_eq_true, decide_eq_true_eq] at h1 h2
  rcases h1 with h1 | h1
  · rcases h2 with h2 | h2
    · exact absurd h2 (by simp [strLt_asymm x y h1])
    · exact h2.symm
  · exact h1

theorem strLt_trans : ∀ x y z : Str, strLt x y = true → strLt y z = true →
    strLt x z = true
  | [], _, _ :: _, _, _ => by simp [strLt]
  | [], _ :: _, [], _, h2 => by simp [strLt] at h2
  | [], [], [], h1, _ => by simp [strLt] at h1
  | _ :: _, [], _, h1, _ => by simp [strLt] at h1
  | _ :: _, _ :: _, [], _, h2 => by simp [strLt] at h2
  | a :: as, b :: bs, c :: cs, h1, h2 => by
    rw [strLt] at h1 h2 ⊢
    by_cases hab : a < b
    · by_cases hbc : b < c
      · simp [lt_trans hab hbc]
      · by_cases hcb : c < b
        · simp [hbc, hcb] at h2
        · have hbc' : b = c := le_antisymm (not_lt.mp hcb) (not_lt.mp hbc)
          subst hbc'
          simp [hab]
    · by_cases hba : b < a
      · simp [hab, hba] at h1
      · have hab' : a = b := le_antisymm (not_lt.mp hba) (not_lt.mp hab)
        subst hab'
        simp only [lt_irrefl, if_false] at h1
        by_cases hbc : a < c
        · simp [hbc]
        · by_cases hcb : c < a
          · simp [hbc, hcb] at h2
          · simp only [hbc, hcb, if_false] at h2 ⊢
            exact strLt_trans as bs cs h1 h2

theorem strLe_trans {x y z : Str} (h1 : strLe x y = true) (h2 : strLe y z = true) :
    strLe x z = true := by
  simp only [strLe, Bool.or_eq_true, decide_eq_true_eq] at h1 h2 ⊢
  rcases h1 with h1 | h1
  · rcases h2 with h2 | h2
    · exact Or.inl (strLt_trans x y z h1 h2)
    · exact Or.inl (h2 ▸ h1)
  · subst h1
    exact h2

end AnalyticsService

namespace AnalyticsService

/-- The entry with the lexicographically greatest key (the most recent month
bucket). -/
def maxKeyEntry {α : Type} : List (Str × α) → Option (Str × α)
  | [] => none
  | p :: rest =>
    match maxKeyEntry rest with
    | none => some p
    | some q => if strLe q.1 p.1 then some p else some q

/-- The count of a skill in one month bucket (`0` when absent). -/
def lookupNat (b : List (Str × Nat)) (k : Str) : Nat :=
  match b.find? (fun p => decide (p.1 = k)) with
  | none => 0
  | some p => p.2

/-- The two most recent month buckets: the greatest key and the greatest among
the rest; `none` when fewer than two buckets exist. -/
def twoMostRecent (monthly : List (Str × List (Str × Nat))) :
    Option ((Str × List (Str × Nat)) × (Str × List (Str × Nat))) :=
  match maxKeyEntry monthly with
  | none => none
  | some recent =>
    match maxKeyEntry (monthly.filter (fun q => decide (¬ q.1 = recent.1))) with
    | none => none
    | some prev => some (recent, prev)

theorem maxKeyEntry_eq_none {α : Type} (l : List (Str × α)) :
    maxKeyEntry l = none ↔ l = [] := by
  cases l with
  | nil => simp [maxKeyEntry]
  | cons p rest =>
    rw [maxKeyEntry]
    cases hm : maxKeyEntry rest with
    | none => simp
    | some q =>
      simp only [hm]
      split <;> simp

theorem maxKeyEntry_mem {α : Type} {l : List (Str × α)} {p : Str × α}
    (h : maxKeyEntry l = some p) : p ∈ l := by
  induction l with
  | nil => simp [maxKeyEntry] at h
  | cons r rest ih =>
    rw [maxKeyEntry] at h
    cases hm : maxKeyEntry rest with
    | none =>
      simp only [hm] at h
      simp at h
      simp [h]
    | some m =>
      simp only [hm] at h
      by_cases hc : strLe m.1 r.1 = true
      · rw [if_pos hc] at h
        injection h with h
        simp [h]
      · rw [if_neg hc] at h
        injection h with h
        subst h
        exact List.mem_cons_of_mem r (ih hm)

theorem maxKeyEntry_ge {α : Type} {l : List (Str × α)} {p : Str × α}
    (h : maxKeyEntry l = some p) : ∀ q ∈ l, strLe q.1 p.1 = true := by
  induction l generalizing p with
  | nil => simp [maxKeyEntry] at h
  | cons r rest ih =>
    rw [maxKeyEntry] at h
    intro q hq
    cases hm : maxKeyEntry rest with
    | none =>
      have hrest := (maxKeyEntry_eq_none rest).mp hm
      subst hrest
      simp only [hm] at h
      injection h with h
      simp at hq
      rw [hq, h]
      exact strLe_refl p.1
    | some m =>
      simp only [hm] at h
      rcases List.mem_cons.mp hq with hq1 | hq1
      · by_cases hc : strLe m.1 r.1 = true
        · rw [if_pos hc] at h
          injection h with h
          rw [hq1, h]
          exact strLe_refl p.1
        · rw [if_neg hc] at h
          injection h with h
          rw [hq1]
          rcases strLe_total r.1 p.1 with ht | ht
          · exact ht
          · rw [← h] at ht
            exact absurd ht hc
      · have hqm := ih hm q hq1
        by_cases hc : strLe m.1 r.1 = true
        · rw [if_pos hc] at h
          injection h with h
          rw [← h]
          exact strLe_trans hqm hc
        · rw [if_neg hc] at h
          injection h with h
          rw [← h]
          exact hqm

theorem nodup_key_eq {α : Type} {l : List (Str × α)} {p q : Str × α}
    (hn : (l.map Prod.fst).Nodup) (hp : p ∈ l) (hq : q ∈ l) (hk : p.1 = q.1) :
    p = q := by
  induction l with
  | nil => simp at hp
  | cons r rest ih =>
    simp only [List.map_cons, List.nodup_cons] at hn
    rcases List.mem_cons.mp hp with hp' | hp'
    · rcases List.mem_cons.mp hq with hq' | hq'
      · rw [hp', hq']
      · exfalso
        apply hn.1
        rw [← hp', hk]
        exact List.mem_map.mpr ⟨q, hq', rfl⟩
    · rcases List.mem_cons.mp hq with hq' | hq'
      · exfalso
        apply hn.1
        rw [← hq', ← hk]
        exact List.mem_map.mpr ⟨p, hp', rfl⟩
      · exact ih hn.2 hp' hq'

theorem lookupNat_pos_mem {b : List (Str × Nat)} {s : Str}
    (h : lookupNat b s ≠ 0) : s ∈ b.map Prod.fst := by
  rw [lookupNat] at h
  cases hf : b.find? (fun p => decide (p.1 = s)) with
  | none => simp only [hf] at h; exact absurd rfl h
  | some p =>
    have h1 := List.find?_some hf
    have h2 := List.mem_of_find?_eq_some hf
    simp only [decide_eq_true_eq] at h1
    rw [← h1]
    exact List.mem_map.mpr ⟨p, h2, rfl⟩

/-- Modelled from the spec: `AnalyticsService._identify_trending_skills(..., "up")`
is called at `analytics_service.py` line 151 but no definition of the helper
appears anywhere in the repository sources; the spec describes it as comparing
each skill's counts in the two most recent month buckets and listing the skills
whose most-recent count strictly exceeds the previous-bucket count. -/
def identify_trending_skills_up (monthly : List (Str × List (Str × Nat))) :
    List Str :=
  match twoMostRecent monthly with
  | none => []
  | some (recent, prev) =>
    ((recent.2.map Prod.fst ++ prev.2.map Prod.fst).dedup).filter
      (fun s => decide (lookupNat prev.2 s < lookupNat recent.2 s))

/-- Modelled from the spec: the trending-down counterpart (strictly smaller
most-recent count); ties fall in neither list. -/
def identify_trending_skills_down (monthly : List (Str × List (Str × Nat))) :
    List Str :=
  match twoMostRecent monthly with
  | none => []
  | some (recent, prev) =>
    ((recent.2.map Prod.fst ++ prev.2.map Prod.fst).dedup).filter
      (fun s => decide (lookupNat recent.2 s < lookupNat prev.2 s))

theorem twoMostRecent_eq {monthly : List (Str × List (Str × Nat))}
    {recent prev : Str × List (Str × Nat)}
    (hn : (monthly.map Prod.fst).Nodup)
    (hr : recent ∈ monthly) (hp : prev ∈ monthly) (hne : prev.1 ≠ recent.1)
    (hrmax : ∀ q ∈ monthly, strLe q.1 recent.1 = true)
    (hpmax : ∀ q ∈ monthly, q.1 ≠ recent.1 → strLe q.1 prev.1 = true) :
    twoMostRecent monthly = some (recent, prev) := by
  rw [twoMostRecent]
  cases hm : maxKeyEntry monthly with
  | none =>
    rw [(maxKeyEntry_eq_none monthly).mp hm] at hr
    simp at hr
  | some p =>
    have hpmem := maxKeyEntry_mem hm
    have hple := hrmax p hpmem
    have hpge := maxKeyEntry_ge hm recent hr
    have hpeq : p = recent := nodup_key_eq hn hpmem hr (strLe_antisymm hple hpge)
    subst hpeq
    have hprevmem : prev ∈ monthly.filter (fun q => decide (¬ q.1 = p.1)) :=
      List.mem_filter.mpr ⟨hp, by simpa using hne⟩
    cases hm2 : maxKeyEntry (monthly.filter (fun q => decide (¬ q.1 = p.1))) with
    | none =>
      rw [(maxKeyEntry_eq_none _).mp hm2] at hprevmem
      simp at hprevmem
    | some p2 =>
      have hp2f := maxKeyEntry_mem hm2
      have hp2mem := (List.mem_filter.mp hp2f).1
      have hp2ne : p2.1 ≠ p.1 := by
        have := (List.mem_filter.mp hp2f).2
        simpa using this
      have h1 := hpmax p2 hp2mem hp2ne
      have h2 := maxKeyEntry_ge hm2 prev hprevmem
      have : p2 = prev := nodup_key_eq hn hp2mem hp (strLe_antisymm h1 h2)
      subst this
      simp only [hm, hm2]

theorem trending_up_mem {monthly : List (Str × List (Str × Nat))}
    {recent prev : Str × List (Str × Nat)} (s : Str)
    (h : twoMostRecent monthly = some (recent, prev)) :
    (s ∈ identify_trending_skills_up monthly ↔
      lookupNat prev.2 s < lookupNat recent.2 s) := by
  rw [identify_trending_skills_up, h]
  constructor
  · intro hmem
    have := (List.mem_filter.mp hmem).2
    simpa using this
  · intro hlt
    refine List.mem_filter.mpr ⟨?_, by simpa using hlt⟩
    rw [List.mem_dedup, List.mem_append]
    exact Or.inl (lookupNat_pos_mem (by omega))

theorem trending_down_mem {monthly : List (Str × List (Str × Nat))}
    {recent prev : Str × List (Str × Nat)} (s : Str)
    (h : twoMostRecent monthly = some (recent, prev)) :
    (s ∈ identify_trending_skills_down monthly ↔
      lookupNat recent.2 s < lookupNat prev.2 s) := by
  rw [identify_trending_skills_down, h]
  constructor
  · intro hmem
    have := (List.mem_filter.mp hmem).2
    simpa using this
  · intro hlt
    refine List.mem_filter.mpr ⟨?_, by simpa using hlt⟩
    rw [List.mem_dedup, List.mem_append]
    exact Or.inr (lookupNat_pos_mem (by omega))

end AnalyticsService

namespace AnalyticsService

/-- Is the value ok (the computation raised no exception)? -/
def okB {α : Type} : Except Py.Err α → Bool
  | .ok _ => true
  | .error _ => false

/-- Is the value an embedded Python string? -/
def isStrB : Json → Bool
  | .str _ => true
  | _ => false

/-- The `skills` column holds `NULL` or a JSON array of strings. -/
def skillsColWF : Json → Bool
  | .null => true
  | .arr l => l.all isStrB
  | _ => false

/-- The `extracted_profile` column holds `NULL` or an object whose `skills`
value (when present) is an object of string arrays and whose `languages`
value (when present) is an array. -/
def profileColWF : Json → Bool
  | .null => true
  | .obj kvs =>
    (match Json.lookup kvs "skills".data with
     | none => true
     | some (.obj pk) => pk.all (fun p => match p.2 with
         | .arr l => l.all isStrB
         | _ => false)
     | some _ => false)
    && (match Json.lookup kvs "languages".data with
        | none => true
        | some (.arr _) => true
        | some _ => false)
  | _ => false

/-- A stored row with well-typed nested fields (absent and null allowed). -/
def rowWF (cv : CVAnalysisRow) : Bool :=
  skillsColWF cv.skills && profileColWF cv.extracted_profile

theorem lookup_mem {kvs : List (Str × Json)} {k : Str} {v : Json}
    (h : Json.lookup kvs k = some v) : (k, v) ∈ kvs := by
  induction kvs with
  | nil => simp [Json.lookup] at h
  | cons p rest ih =>
    rw [Json.lookup] at h
    split at h
    · next heq =>
      injection h with h
      rw [← heq, ← h]
      exact List.mem_cons_self p rest
    · exact List.mem_cons_of_mem p (ih h)

theorem foldlM_ok_of_steps {β γ : Type} {f : β → γ → Except Py.Err β}
    {l : List γ} (acc : β)
    (h : ∀ b : β, ∀ x ∈ l, okB (f b x) = true) :
    okB (l.foldlM f acc) = true := by
  induction l generalizing acc with
  | nil => rfl
  | cons x t ih =>
    rw [List.foldlM_cons]
    have hx := h acc x (List.mem_cons_self x t)
    cases hf : f acc x with
    | error e => rw [hf] at hx; simp [okB] at hx
    | ok b =>
      show okB (t.foldlM f b) = true
      exact ih b (fun b x hx => h b x (List.mem_cons_of_mem _ hx))

end AnalyticsService

namespace AnalyticsService

theorem lower_step_ok {β : Type} (g : β → Str → β) (b : β) {j : Json}
    (h : isStrB j = true) :
    okB (Py.pyLower j >>= fun low => pure (g b low)) = true := by
  cases j <;> simp [isStrB] at h ⊢ <;> rfl

theorem skillFreqPass_ok {freq : List (Str × Nat)} {skills : Json}
    (h : skillsColWF skills = true) : okB (skillFreqPass freq skills) = true := by
  rw [skillFreqPass]
  cases skills with
  | null => rfl
  | arr l =>
    cases l with
    | nil => rfl
    | cons j t =>
      simp only [Py.truthy, if_true]
      apply foldlM_ok_of_steps
      intro b x hx
      simp only [skillsColWF, List.all_eq_true] at h
      exact lower_step_ok bump b (h x hx)
  | bool b => simp [skillsColWF] at h
  | intNum n => simp [skillsColWF] at h
  | floatNum m e => simp [skillsColWF] at h
  | str s => simp [skillsColWF] at h
  | obj kvs => simp [skillsColWF] at h

end AnalyticsService

namespace AnalyticsService

theorem skillCatPass_ok {cats : List (Str × List (Str × Nat))} {cv : CVAnalysisRow}
    (h : profileColWF cv.extracted_profile = true) :
    okB (skillCatPass cats cv) = true := by
  rw [skillCatPass]
  cases hep : cv.extracted_profile with
  | null => rfl
  | bool b => rfl
  | intNum n => rfl
  | floatNum m e => rfl
  | str s => rfl
  | arr l => rfl
  | obj kvs =>
    rw [hep] at h
    cases kvs with
    | nil => rfl
    | cons p0 rest =>
      simp only [Py.truthy, if_true]
      simp only [profileColWF, Bool.and_eq_true] at h
      cases hl : Json.lookup (p0 :: rest) "skills".data with
      | none =>
        simp only [hl, Option.getD_none]
        rfl
      | some v =>
        simp only [hl, Option.getD_some]
        rw [hl] at h
        cases v with
        | obj pk =>
          apply foldlM_ok_of_steps
          intro b p hp
          have hv : (match p.2 with
              | .arr l => l.all isStrB
              | _ => false) = true := by
            have := h.1
            simp only [List.all_eq_true] at this
            exact this p hp
          cases hp2 : p.2 with
          | arr l =>
            rw [hp2] at hv
            apply foldlM_ok_of_steps
            intro b2 x hx
            simp only [List.all_eq_true] at hv
            exact lower_step_ok (fun cs2 low => bumpCat cs2 p.1 low) b2 (hv x hx)
          | null => rfl
          | bool bb => rfl
          | intNum n => rfl
          | floatNum m e => rfl
          | str s => rfl
          | obj kk => rfl
        | null => simp at h
        | bool bb => simp at h
        | intNum n => simp at h
        | floatNum m e => simp at h
        | str s => simp at h
        | arr l => simp at h

end AnalyticsService

namespace AnalyticsService

theorem exbind_ok {α β : Type} (a : α) (f : α → Except Py.Err β) :
    (Except.ok a >>= f : Except Py.Err β) = f a := rfl

theorem profile_skills_obj {ep : Json} (h : profileColWF ep = true) :
    ∃ ps, profileSkillsExpr ep = Except.ok (Json.obj ps) ∧
      ps.all (fun p => match p.2 with
        | .arr l => l.all isStrB
        | _ => false) = true := by
  rw [profileSkillsExpr]
  cases ep with
  | null => exact ⟨[], rfl, rfl⟩
  | bool b => simp [profileColWF] at h
  | intNum n => simp [profileColWF] at h
  | floatNum m e => simp [profileColWF] at h
  | str s => simp [profileColWF] at h
  | arr l => simp [profileColWF] at h
  | obj kvs =>
    cases kvs with
    | nil => exact ⟨[], rfl, rfl⟩
    | cons p0 rest =>
      simp only [Py.truthy, if_true, Py.pyGet]
      simp only [profileColWF, Bool.and_eq_true] at h
      cases hl : Json.lookup (p0 :: rest) "skills".data with
      | none => exact ⟨[], by rfl, rfl⟩
      | some v =>
        rw [hl] at h
        cases v with
        | obj pk => exact ⟨pk, by rfl, h.1⟩
        | null => simp at h
        | bool bb => simp at h
        | intNum n => simp at h
        | floatNum m e => simp at h
        | str s => simp at h
        | arr l => simp at h

theorem analyze_skills_ok {cv : CVAnalysisRow} (h : rowWF cv = true) :
    okB (analyze_skills cv) = true := by
  rw [rowWF, Bool.and_eq_true] at h
  obtain ⟨hs, hp⟩ := h
  obtain ⟨ps, hps, hpsWF⟩ := profile_skills_obj hp
  have hlen : ∃ n, Py.pyLen (if Py.truthy cv.skills then cv.skills else .arr []) =
      Except.ok n := by
    cases hsv : cv.skills with
    | null => exact ⟨0, rfl⟩
    | arr l =>
      cases l with
      | nil => exact ⟨0, rfl⟩
      | cons j t => exact ⟨(j :: t).length, rfl⟩
    | bool b => rw [hsv] at hs; simp [skillsColWF] at hs
    | intNum n => rw [hsv] at hs; simp [skillsColWF] at hs
    | floatNum m e => rw [hsv] at hs; simp [skillsColWF] at hs
    | str s => rw [hsv] at hs; simp [skillsColWF] at hs
    | obj kvs => rw [hsv] at hs; simp [skillsColWF] at hs
  obtain ⟨n, hn⟩ := hlen
  have htech : ∀ k : Str, ∃ v m, Py.pyGet (Json.obj ps) k (.arr []) = Except.ok v ∧
      Py.pyLen v = Except.ok m := by
    intro k
    rw [Py.pyGet]
    cases hl : Json.lookup ps k with
    | none => exact ⟨.arr [], 0, rfl, rfl⟩
    | some v =>
      have hmem := lookup_mem hl
      simp only [List.all_eq_true] at hpsWF
      have hv := hpsWF (k, v) hmem
      cases v with
      | arr l => exact ⟨.arr l, l.length, rfl, rfl⟩
      | null => simp at hv
      | bool bb => simp at hv
      | intNum nn => simp at hv
      | floatNum mm ee => simp at hv
      | str ss => simp at hv
      | obj kk => simp at hv
  obtain ⟨v1, m1, hg1, hl1⟩ := htech "technical".data
  obtain ⟨v2, m2, hg2, hl2⟩ := htech "soft_skills".data
  simp only [analyze_skills]
  rw [hps, exbind_ok, hn, exbind_ok, hg1, exbind_ok, hl1, exbind_ok,
    hg2, exbind_ok, hl2, exbind_ok]
  rfl

end AnalyticsService

namespace AnalyticsService

theorem pyGet_obj (kvs : List (Str × Json)) (k : Str) (d : Json) :
    Py.pyGet (.obj kvs) k d = Except.ok ((Json.lookup kvs k).getD d) := rfl

theorem pyLen_arr (l : List Json) : Py.pyLen (.arr l) = Except.ok l.length := rfl

theorem improvement_ok {cv : CVAnalysisRow}
    (hp : profileColWF cv.extracted_profile = true) :
    okB (generate_improvement_suggestions cv) = true := by
  obtain ⟨kvs, hkvs, hwf⟩ :
      ∃ kvs, (if Py.truthy cv.extracted_profile then cv.extracted_profile
        else Json.obj []) = Json.obj kvs ∧ profileColWF (Json.obj kvs) = true := by
    cases hep : cv.extracted_profile with
    | null => exact ⟨[], rfl, rfl⟩
    | obj kk =>
      rw [hep] at hp
      cases kk with
      | nil => exact ⟨[], rfl, rfl⟩
      | cons p0 rest => exact ⟨p0 :: rest, by simp [Py.truthy], hp⟩
    | bool b => rw [hep] at hp; simp [profileColWF] at hp
    | intNum n => rw [hep] at hp; simp [profileColWF] at hp
    | floatNum m e => rw [hep] at hp; simp [profileColWF] at hp
    | str s => rw [hep] at hp; simp [profileColWF] at hp
    | arr l => rw [hep] at hp; simp [profileColWF] at hp
  simp only [profileColWF, Bool.and_eq_true] at hwf
  obtain ⟨ps, hps⟩ :
      ∃ ps, (Json.lookup kvs "skills".data).getD (Json.obj []) = Json.obj ps := by
    cases hsk : Json.lookup kvs "skills".data with
    | none => exact ⟨[], by rw [Option.getD_none]⟩
    | some v =>
      rw [hsk] at hwf
      cases v with
      | obj pk => exact ⟨pk, by rw [Option.getD_some]⟩
      | null => simp at hwf
      | bool bb => simp at hwf
      | intNum nn => simp at hwf
      | floatNum mm ee => simp at hwf
      | str ss => simp at hwf
      | arr ll => simp at hwf
  obtain ⟨la, hla⟩ :
      ∃ la, (Json.lookup kvs "languages".data).getD (Json.arr []) = Json.arr la := by
    cases hlg : Json.lookup kvs "languages".data with
    | none => exact ⟨[], by rw [Option.getD_none]⟩
    | some v =>
      rw [hlg] at hwf
      cases v with
      | arr ll => exact ⟨ll, by rw [Option.getD_some]⟩
      | null => simp at hwf
      | bool bb => simp at hwf
      | intNum nn => simp at hwf
      | floatNum mm ee => simp at hwf
      | str ss => simp at hwf
      | obj kk => simp at hwf
  simp only [generate_improvement_suggestions]
  rw [hkvs]
  rw [pyGet_obj kvs "skills".data, hps, exbind_ok]
  rw [pyGet_obj ps "technical".data, exbind_ok]
  rw [pyGet_obj kvs "certifications".data, exbind_ok]
  rw [pyGet_obj kvs "languages".data, hla, exbind_ok]
  rw [pyLen_arr, exbind_ok]
  rfl

end AnalyticsService

namespace AnalyticsService

theorem skill_analytics_core_ok {rows : List CVAnalysisRow}
    (h : rows.all rowWF = true) : okB (skill_analytics_core rows) = true := by
  rw [skill_analytics_core]
  apply foldlM_ok_of_steps
  intro st cv hcv
  simp only [List.all_eq_true] at h
  have hwf := h cv hcv
  rw [rowWF, Bool.and_eq_true] at hwf
  have h1 := @skillFreqPass_ok st.1 cv.skills hwf.1
  cases hf : skillFreqPass st.1 cv.skills with
  | error e => rw [hf] at h1; simp [okB] at h1
  | ok freq =>
    rw [exbind_ok]
    have h2 := @skillCatPass_ok st.2 cv hwf.2
    cases hc : skillCatPass st.2 cv with
    | error e => rw [hc] at h2; simp [okB] at h2
    | ok cats => rfl

end AnalyticsService

/-! ## Shared normalizer lemmas: the default-injection loop -/

namespace Json

/-- The common `for field in fields: if field not in d: d[field] = default` loop
shape shared by the profile and question normalizers (and the per-question
fixup). -/
def injectLoop (dflt : Str → Json) (fields : List Str) (kvs : List (Str × Json)) :
    List (Str × Json) :=
  fields.foldl
    (fun acc f => if hasKey acc f then acc else setKey acc f (dflt f)) kvs

theorem injectLoop_cons (dflt : Str → Json) (f : Str) (fs : List Str)
    (kvs : List (Str × Json)) :
    injectLoop dflt (f :: fs) kvs =
      injectLoop dflt fs (if hasKey kvs f then kvs else setKey kvs f (dflt f)) := rfl

theorem lookup_injectLoop_of_some (dflt : Str → Json) (fields : List Str)
    {kvs : List (Str × Json)} {x : Str} {v : Json} (h : lookup kvs x = some v) :
    lookup (injectLoop dflt fields kvs) x = some v := by
  induction fields generalizing kvs with
  | nil => exact h
  | cons f fs ih =>
    rw [injectLoop_cons]
    by_cases hk : hasKey kvs f = true
    · rw [if_pos hk]
      exact ih h
    · rw [if_neg hk]
      apply ih
      by_cases hfx : f = x
      · subst hfx
        exact absurd ((hasKey_iff_lookup kvs f).mpr ⟨v, h⟩) hk
      · rw [lookup_setKey_other kvs f x (dflt f) (fun hh => hfx hh.symm)]
        exact h

theorem hasKey_injectLoop_mono (dflt : Str → Json) (fields : List Str)
    {kvs : List (Str × Json)} {x : Str} (h : hasKey kvs x = true) :
    hasKey (injectLoop dflt fields kvs) x = true := by
  obtain ⟨v, hv⟩ := (hasKey_iff_lookup kvs x).mp h
  exact (hasKey_iff_lookup _ x).mpr ⟨v, lookup_injectLoop_of_some dflt fields hv⟩

theorem hasKey_injectLoop_mem (dflt : Str → Json) {fields : List Str}
    {kvs : List (Str × Json)} {f : Str} (h : f ∈ fields) :
    hasKey (injectLoop dflt fields kvs) f = true := by
  induction fields generalizing kvs with
  | nil => simp at h
  | cons g fs ih =>
    rw [injectLoop_cons]
    rcases List.mem_cons.mp h with hf | hf
    · subst hf
      by_cases hk : hasKey kvs f = true
      · rw [if_pos hk]
        exact hasKey_injectLoop_mono dflt fs hk
      · rw [if_neg hk]
        apply hasKey_injectLoop_mono
        rw [hasKey_setKey]
        simp
    · by_cases hk : hasKey kvs g = true
      · rw [if_pos hk]
        exact ih hf
      · rw [if_neg hk]
        exact ih hf

theorem lookup_injectLoop_default (dflt : Str → Json) {fields : List Str}
    {kvs : List (Str × Json)} {f : Str} (hmem : f ∈ fields)
    (hmiss : hasKey kvs f = false) :
    lookup (injectLoop dflt fields kvs) f = some (dflt f) := by
  induction fields generalizing kvs with
  | nil => simp at hmem
  | cons g fs ih =>
    rw [injectLoop_cons]
    by_cases hfg : f = g
    · subst hfg
      rw [if_neg (by simp [hmiss])]
      exact lookup_injectLoop_of_some dflt fs (lookup_setKey_self kvs f (dflt f))
    · have hf : f ∈ fs := by
        rcases List.mem_cons.mp hmem with hh | hh
        · exact absurd hh hfg
        · exact hh
      by_cases hk : hasKey kvs g = true
      · rw [if_pos hk]
        exact ih hf hmiss
      · rw [if_neg hk]
        apply ih hf
        rw [hasKey_setKey, hmiss]
        simp only [Bool.false_or, decide_eq_false_iff_not]
        exact fun hh => hfg hh.symm
    
theorem injectLoop_id (dflt : Str → Json) {fields : List Str}
    {kvs : List (Str × Json)} (h : ∀ f ∈ fields, hasKey kvs f = true) :
    injectLoop dflt fields kvs = kvs := by
  induction fields with
  | nil => rfl
  | cons g fs ih =>
    rw [injectLoop_cons, if_pos (h g (List.mem_cons_self g fs))]
    exact ih (fun f hf => h f (List.mem_cons_of_mem g hf))

theorem wfKvsB_injectLoop (dflt : Str → Json) (fields : List Str)
    {kvs : List (Str × Json)} (hwf : wfKvsB kvs = true)
    (hd : ∀ f ∈ fields, wfB (dflt f) = true) :
    wfKvsB (injectLoop dflt fields kvs) = true := by
  induction fields generalizing kvs with
  | nil => exact hwf
  | cons g fs ih =>
    rw [injectLoop_cons]
    by_cases hk : hasKey kvs g = true
    · rw [if_pos hk]
      exact ih hwf (fun f hf => hd f (List.mem_cons_of_mem g hf))
    · rw [if_neg hk]
      exact ih (wfKvsB_setKey g hwf (hd g (List.mem_cons_self g fs)))
        (fun f hf => hd f (List.mem_cons_of_mem g hf))

theorem setKey_lookup_self_eq {kvs : List (Str × Json)} {k : Str} {v : Json}
    (h : lookup kvs k = some v) : setKey kvs k v = kvs := by
  induction kvs with
  | nil => simp [lookup] at h
  | cons p rest ih =>
    obtain ⟨k0, v0⟩ := p
    rw [lookup] at h
    by_cases hk : k0 = k
    · rw [if_pos hk] at h
      injection h with h
      rw [setKey, if_pos hk, h]
    · rw [if_neg hk] at h
      rw [setKey, if_neg hk, ih h]

end Json

/-! ## Re-parsing normalizer output -/

namespace Json

theorem wf_lookup {kvs : List (Str × Json)} {k : Str} {v : Json}
    (hwf : wfKvsB kvs = true) (h : lookup kvs k = some v) : wfB v = true := by
  induction kvs with
  | nil => simp [lookup] at h
  | cons p rest ih =>
    obtain ⟨k0, v0⟩ := p
    simp only [wfKvsB, Bool.and_eq_true] at hwf
    rw [lookup] at h
    by_cases hk : k0 = k
    · rw [if_pos hk] at h
      injection h with h
      rw [← h]
      exact hwf.1.2
    · rw [if_neg hk] at h
      exact ih hwf.2 h

theorem dumps_obj_shape (kvs : List (Str × Json)) :
    ∃ a, dumps (.obj kvs) = '{' :: (a ++ ['}']) := by
  cases kvs with
  | nil => exact ⟨[], rfl⟩
  | cons kv rest =>
    refine ⟨dumpsPair kv ++ dumpsObjRest rest, ?_⟩
    rw [dumps, List.append_assoc]

theorem extractJsonSub_lbrace (a : Str) :
    extractJsonSub ('{' :: (a ++ ['}'])) = some ('{' :: (a ++ ['}'])) := by
  rw [extractJsonSub]
  have h1 : PyStr.findIdx '{' ('{' :: (a ++ ['}'])) = some 0 := by
    rw [PyStr.findIdx, if_pos rfl]
  have h2 : PyStr.rfindIdx '}' ('{' :: (a ++ ['}'])) = some (a.length + 1) := by
    have : '{' :: (a ++ ['}']) = ('{' :: a) ++ ['}'] := by simp
    rw [this, Json.rfindIdx_concat]
    simp
  rw [h1, h2]
  simp only [List.drop_zero, Option.some.injEq]
  rw [show a.length + 1 + 1 - 0 = ('{' :: (a ++ ['}'])).length by simp]
  exact List.take_length _

theorem reparse_dumps_obj {kvs : List (Str × Json)} (hwf : wfKvsB kvs = true) :
    extractJsonSub (dumps (.obj kvs)) = some (dumps (.obj kvs)) ∧
    json_loads (dumps (.obj kvs)) = some (.obj kvs) := by
  obtain ⟨a, ha⟩ := dumps_obj_shape kvs
  constructor
  · rw [ha]
    exact extractJsonSub_lbrace a
  · exact json_loads_dumps (by simpa [wfB] using hwf)

end Json

namespace Py

theorem pyFloatOr0_float (v : Json) : ∃ m e, pyFloatOr0 v = .floatNum m e := by
  rw [pyFloatOr0]
  cases h : pyFloat v with
  | none => exact ⟨0, 1, rfl⟩
  | some w =>
    cases v with
    | intNum n => simp only [pyFloat, Option.some.injEq] at h; rw [← h]; exact ⟨_, _, rfl⟩
    | floatNum m e => simp only [pyFloat, Option.some.injEq] at h; rw [← h]; exact ⟨_, _, rfl⟩
    | bool b => simp only [pyFloat, Option.some.injEq] at h; rw [← h]; exact ⟨_, _, rfl⟩
    | str s =>
      obtain ⟨-, m, e, hw⟩ := parseFloatStr_wf (h : parseFloatStr s = some w)
      rw [hw]
      exact ⟨m, e, rfl⟩
    | null => simp [pyFloat] at h
    | arr l => simp [pyFloat] at h
    | obj kk => simp [pyFloat] at h

theorem pyFloatOr0_idem (v : Json) : pyFloatOr0 (pyFloatOr0 v) = pyFloatOr0 v := by
  obtain ⟨m, e, h⟩ := pyFloatOr0_float v
  rw [h]
  rfl

end Py

namespace ProfileExtractorTool

theorem injectDefaults_eq (kvs : List (Str × Json)) :
    injectDefaults kvs = Json.injectLoop fieldDefault required_fields kvs := rfl

theorem fieldDefault_wf (f : Str) : Json.wfB (fieldDefault f) = true := by
  rw [fieldDefault]
  split <;> rfl

theorem coerceYears_wf {kvs : List (Str × Json)} (h : Json.wfKvsB kvs = true) :
    Json.wfKvsB (coerceYears kvs) = true := by
  rw [coerceYears]
  split
  · apply Json.wfKvsB_setKey _ h
    have hv : Json.wfB ((Json.lookup kvs "total_experience_years".data).getD .null) = true := by
      cases hl : Json.lookup kvs "total_experience_years".data with
      | none => rfl
      | some v => exact Json.wf_lookup h hl
    exact (Py.pyFloatOr0_wf hv).1
  · exact h

theorem hasKey_coerceYears {kvs : List (Str × Json)} {f : Str}
    (h : Json.hasKey kvs f = true) : Json.hasKey (coerceYears kvs) f = true := by
  rw [coerceYears]
  split
  · rw [Json.hasKey_setKey, h]
    rfl
  · exact h

theorem coerceYears_idem (kvs : List (Str × Json)) :
    coerceYears (coerceYears kvs) = coerceYears kvs := by
  by_cases h : Json.hasKey kvs "total_experience_years".data = true
  · have hC : coerceYears kvs = Json.setKey kvs "total_experience_years".data
        (Py.pyFloatOr0 ((Json.lookup kvs "total_experience_years".data).getD .null)) := by
      rw [coerceYears, if_pos h]
    have hK : Json.hasKey (coerceYears kvs) "total_experience_years".data = true :=
      hasKey_coerceYears h
    have hLook : Json.lookup (coerceYears kvs) "total_experience_years".data =
        some (Py.pyFloatOr0 ((Json.lookup kvs "total_experience_years".data).getD .null)) := by
      rw [hC]
      exact Json.lookup_setKey_self kvs _ _
    rw [coerceYears, if_pos hK, hLook]
    simp only [Option.getD_some]
    rw [Py.pyFloatOr0_idem]
    exact Json.setKey_lookup_self_eq hLook
  · have hC : coerceYears kvs = kvs := by
      rw [coerceYears, if_neg h]
    rw [hC, coerceYears, if_neg h]

theorem reparse_fixed {kvs2 : List (Str × Json)}
    (hwf : Json.wfKvsB kvs2 = true)
    (hfull : ∀ f ∈ required_fields, Json.hasKey kvs2 f = true)
    (hcy : coerceYears kvs2 = kvs2) :
    parse_response (Json.dumps (.obj kvs2)) = some (Json.dumps (.obj kvs2)) := by
  obtain ⟨hex, hld⟩ := Json.reparse_dumps_obj hwf
  simp only [parse_response, hex, hld]
  rw [injectDefaults_eq, Json.injectLoop_id fieldDefault hfull, hcy]

theorem profile_idem {x y : Str} (h : parse_response x = some y) :
    parse_response y = some y := by
  rw [parse_response] at h
  cases he : extractJsonSub x with
  | none =>
    simp only [he] at h
    injection h with h
    subst h
    simp [parse_response, he]
  | some js =>
    simp only [he] at h
    cases hl : Json.json_loads js with
    | none =>
      simp only [hl] at h
      injection h with h
      subst h
      simp [parse_response, he, hl]
    | some v =>
      simp only [hl] at h
      cases v with
      | obj kvs =>
        simp only [Option.some.injEq] at h
        subst h
        have hwfkvs : Json.wfKvsB kvs = true := by
          have := Json.json_loads_wf hl
          simpa [Json.wfB] using this
        have hKwf : Json.wfKvsB (coerceYears (injectDefaults kvs)) = true := by
          apply coerceYears_wf
          rw [injectDefaults_eq]
          exact Json.wfKvsB_injectLoop fieldDefault required_fields hwfkvs
            (fun f _ => fieldDefault_wf f)
        have hKfull : ∀ f ∈ required_fields,
            Json.hasKey (coerceYears (injectDefaults kvs)) f = true := by
          intro f hf
          apply hasKey_coerceYears
          rw [injectDefaults_eq]
          exact Json.hasKey_injectLoop_mem fieldDefault hf
        exact reparse_fixed hKwf hKfull (coerceYears_idem (injectDefaults kvs))
      | null => simp at h
      | bool b => simp at h
      | intNum n => simp at h
      | floatNum m e => simp at h
      | str s => simp at h
      | arr l => simp at h

end ProfileExtractorTool

namespace CareerRecommenderTool

theorem recommender_idem {x y : Str} (h : parse_response x = some y) :
    parse_response y = some y := by
  rw [parse_response] at h
  cases he : extractJsonSub x with
  | none =>
    simp only [he] at h
    injection h with h
    subst h
    simp [parse_response, he]
  | some js =>
    simp only [he] at h
    cases hl : Json.json_loads js with
    | none =>
      simp only [hl] at h
      injection h with h
      subst h
      simp [parse_response, he, hl]
    | some v =>
      simp only [hl] at h
      cases v with
      | obj kvs =>
        simp only [Option.some.injEq] at h
        by_cases hall : required_fields.all (fun f => Json.hasKey kvs f) = true
        · rw [if_pos hall] at h
          injection h with h
          subst h
          have hwfkvs : Json.wfKvsB kvs = true := by
            have := Json.json_loads_wf hl
            simpa [Json.wfB] using this
          obtain ⟨hex, hld⟩ := Json.reparse_dumps_obj hwfkvs
          simp only [parse_response, hex, hld]
          rw [if_pos hall]
        · rw [if_neg hall] at h
          injection h with h
          subst h
          simp only [parse_response, he, hl]
          rw [if_neg hall]
      | null => simp at h
      | bool b => simp at h
      | intNum n => simp at h
      | floatNum m e => simp at h
      | str s => simp at h
      | arr l => simp at h

end CareerRecommenderTool

namespace QuestionGeneratorTool

theorem question_injectDefaults_eq (kvs : List (Str × Json)) :
    injectDefaults kvs = Json.injectLoop fieldDefault required_fields kvs := rfl

theorem question_fieldDefault_wf (f : Str) : Json.wfB (fieldDefault f) = true := by
  rw [fieldDefault]
  split
  · rfl
  · split <;> rfl

theorem fixQuestion_eq (kvs : List (Str × Json)) :
    fixQuestion (.obj kvs) =
      .obj (Json.injectLoop (fun _ => .str "Not specified".data) question_fields kvs) := rfl

theorem fixQuestion_wf {q : Json} (h : Json.wfB q = true) :
    Json.wfB (fixQuestion q) = true := by
  cases q with
  | obj kvs =>
    rw [fixQuestion_eq]
    simp only [Json.wfB] at h ⊢
    exact Json.wfKvsB_injectLoop _ question_fields h (fun f _ => rfl)
  | null => exact h
  | bool b => exact h
  | intNum n => exact h
  | floatNum m e => exact h
  | str s => exact h
  | arr l => exact h

theorem fixQuestion_idem (q : Json) : fixQuestion (fixQuestion q) = fixQuestion q := by
  cases q with
  | obj kvs =>
    rw [fixQuestion_eq]
    rw [fixQuestion_eq]
    rw [Json.injectLoop_id _ (fun f hf => Json.hasKey_injectLoop_mem _ hf)]
  | null => rfl
  | bool b => rfl
  | intNum n => rfl
  | floatNum m e => rfl
  | str s => rfl
  | arr l => rfl

theorem wfListB_map_fixQuestion {qs : List Json} (h : Json.wfListB qs = true) :
    Json.wfListB (qs.map fixQuestion) = true := by
  induction qs with
  | nil => rfl
  | cons q rest ih =>
    simp only [Json.wfListB, Bool.and_eq_true] at h
    simp only [List.map_cons, Json.wfListB, Bool.and_eq_true]
    exact ⟨fixQuestion_wf h.1, ih h.2⟩

theorem map_fixQuestion_idem (qs : List Json) :
    (qs.map fixQuestion).map fixQuestion = qs.map fixQuestion := by
  induction qs with
  | nil => rfl
  | cons q rest ih =>
    simp only [List.map_cons, fixQuestion_idem, ih]

theorem fixQuestions_wf {kvs : List (Str × Json)} (h : Json.wfKvsB kvs = true) :
    Json.wfKvsB (fixQuestions kvs) = true := by
  rw [fixQuestions]
  cases hl : Json.lookup kvs "questions".data with
  | none => exact h
  | some v =>
    cases v with
    | arr qs =>
      apply Json.wfKvsB_setKey _ h
      simp only [Json.wfB]
      apply wfListB_map_fixQuestion
      have := Json.wf_lookup h hl
      simpa [Json.wfB] using this
    | null => exact h
    | bool b => exact h
    | intNum n => exact h
    | floatNum m e => exact h
    | str s => exact h
    | obj kk => exact h

theorem hasKey_fixQuestions {kvs : List (Str × Json)} {f : Str}
    (h : Json.hasKey kvs f = true) : Json.hasKey (fixQuestions kvs) f = true := by
  rw [fixQuestions]
  cases hl : Json.lookup kvs "questions".data with
  | none => exact h
  | some v =>
    cases v with
    | arr qs =>
      rw [Json.hasKey_setKey, h]
      rfl
    | null => exact h
    | bool b => exact h
    | intNum n => exact h
    | floatNum m e => exact h
    | str s => exact h
    | obj kk => exact h

end QuestionGeneratorTool

namespace QuestionGeneratorTool

theorem question_reparse_fixed {F : List (Str × Json)} {n : Nat}
    (hwf : Json.wfKvsB F = true)
    (hfull : ∀ f ∈ required_fields, Json.hasKey F f = true)
    (hfix : fixQuestions F = F)
    (hlen : Py.pyLen ((Json.lookup F "questions".data).getD (.arr [])) = .ok n)
    (htot : Json.lookup F "total_questions".data = some (.intNum n)) :
    parse_response (Json.dumps (.obj F)) = some (Json.dumps (.obj F)) := by
  obtain ⟨hex, hld⟩ := Json.reparse_dumps_obj hwf
  simp only [parse_response, hex, hld]
  rw [question_injectDefaults_eq, Json.injectLoop_id fieldDefault hfull, hfix]
  simp only [hlen]
  rw [Json.setKey_lookup_self_eq htot]

theorem fallbackQuestions_wf (text : Str) :
    Json.wfListB (fallbackQuestions text) = true := by
  rw [fallbackQuestions]
  generalize (PyStr.splitLines (PyStr.strip text)).take 15 = ls
  induction ls with
  | nil => rfl
  | cons l rest ih =>
    rw [List.filterMap_cons]
    by_cases hemp : (PyStr.strip l).isEmpty = true
    · simp only [hemp, if_true]
      exact ih
    · simp only [hemp, if_false, Bool.false_eq_true]
      simp only [Json.wfListB, Bool.and_eq_true]
      refine ⟨?_, ih⟩
      simp +decide [Json.wfB, Json.wfKvsB, Json.hasKey]

theorem map_fix_fallback (text : Str) :
    (fallbackQuestions text).map fixQuestion = fallbackQuestions text := by
  rw [fallbackQuestions]
  generalize (PyStr.splitLines (PyStr.strip text)).take 15 = ls
  induction ls with
  | nil => rfl
  | cons l rest ih =>
    rw [List.filterMap_cons]
    by_cases hemp : (PyStr.strip l).isEmpty = true
    · simp only [hemp, if_true]
      exact ih
    · simp only [hemp, if_false, Bool.false_eq_true, List.map_cons, ih]
      rw [fixQuestion_eq, Json.injectLoop_id]
      intro f hf
      simp only [question_fields, List.mem_cons, List.not_mem_nil, or_false] at hf
      rcases hf with rfl | rfl | rfl | rfl | rfl
      · simp +decide [Json.hasKey]
      · simp +decide [Json.hasKey]
      · simp +decide [Json.hasKey]
      · simp +decide [Json.hasKey]
      · simp +decide [Json.hasKey]

end QuestionGeneratorTool

namespace QuestionGeneratorTool

theorem fallback_shape_reparse (qs : List Json) (hwfq : Json.wfListB qs = true)
    (hmap : qs.map fixQuestion = qs) :
    parse_response (Json.dumps (.obj
      [("questions".data, .arr qs),
       ("total_questions".data, .intNum qs.length),
       ("estimated_duration".data, .intNum (qs.length * 4)),
       ("difficulty_distribution".data, .obj [("Medium".data, .intNum qs.length)]),
       ("category_distribution".data, .obj [("General".data, .intNum qs.length)])])) =
    some (Json.dumps (.obj
      [("questions".data, .arr qs),
       ("total_questions".data, .intNum qs.length),
       ("estimated_duration".data, .intNum (qs.length * 4)),
       ("difficulty_distribution".data, .obj [("Medium".data, .intNum qs.length)]),
       ("category_distribution".data, .obj [("General".data, .intNum qs.length)])])) := by
  have hlook : Json.lookup
      [("questions".data, Json.arr qs),
       ("total_questions".data, .intNum qs.length),
       ("estimated_duration".data, .intNum (qs.length * 4)),
       ("difficulty_distribution".data, .obj [("Medium".data, .intNum qs.length)]),
       ("category_distribution".data, .obj [("General".data, .intNum qs.length)])]
      "questions".data = some (.arr qs) := by
    rw [Json.lookup, if_pos rfl]
  apply @question_reparse_fixed _ qs.length
  · simp +decide [Json.wfKvsB, Json.wfB, Json.hasKey, Json.wfListB, hwfq]
  · intro f hf
    simp only [required_fields, List.mem_cons, List.not_mem_nil, or_false] at hf
    rcases hf with rfl | rfl | rfl | rfl | rfl
    · simp +decide [Json.hasKey]
    · simp +decide [Json.hasKey]
    · simp +decide [Json.hasKey]
    · simp +decide [Json.hasKey]
    · simp +decide [Json.hasKey]
  · rw [fixQuestions]
    simp only [hlook]
    rw [hmap]
    exact Json.setKey_lookup_self_eq hlook
  · rw [hlook]
    rfl
  · simp +decide [Json.lookup]

theorem fallback_reparse (text : Str) :
    parse_response (Json.dumps (fallbackData text)) =
      some (Json.dumps (fallbackData text)) := by
  have hshape : fallbackData text = .obj
      [("questions".data, .arr (fallbackQuestions text)),
       ("total_questions".data, .intNum (fallbackQuestions text).length),
       ("estimated_duration".data, .intNum ((fallbackQuestions text).length * 4)),
       ("difficulty_distribution".data,
         .obj [("Medium".data, .intNum (fallbackQuestions text).length)]),
       ("category_distribution".data,
         .obj [("General".data, .intNum (fallbackQuestions text).length)])] := rfl
  rw [hshape]
  exact fallback_shape_reparse _ (fallbackQuestions_wf text) (map_fix_fallback text)

end QuestionGeneratorTool

namespace QuestionGeneratorTool

theorem fixQuestions_eq_self {kvs2 : List (Str × Json)}
    (h : ∀ qs1, Json.lookup kvs2 "questions".data = some (.arr qs1) →
      qs1.map fixQuestion = qs1) :
    fixQuestions kvs2 = kvs2 := by
  rw [fixQuestions]
  cases hl : Json.lookup kvs2 "questions".data with
  | none => rfl
  | some v =>
    cases v with
    | arr qs1 =>
      simp only [h qs1 hl]
      exact Json.setKey_lookup_self_eq hl
    | null => rfl
    | bool b => rfl
    | intNum m => rfl
    | floatNum m e => rfl
    | str s => rfl
    | obj kk => rfl

theorem lookup_fixQuestions_fixed {kvs0 : List (Str × Json)} {qs1 : List Json}
    (h : Json.lookup (fixQuestions kvs0) "questions".data = some (.arr qs1)) :
    qs1.map fixQuestion = qs1 := by
  rw [fixQuestions] at h
  cases hl0 : Json.lookup kvs0 "questions".data with
  | none =>
    simp only [hl0] at h
    exact absurd h (by simp)
  | some v =>
    cases v with
    | arr qs0 =>
      simp only [hl0] at h
      rw [Json.lookup_setKey_self] at h
      injection h with h
      injection h with h
      rw [← h]
      exact map_fixQuestion_idem qs0
    | null => simp only [hl0] at h; simp at h
    | bool b => simp only [hl0] at h; simp at h
    | intNum m => simp only [hl0] at h; simp at h
    | floatNum m e => simp only [hl0] at h; simp at h
    | str s => simp only [hl0] at h; simp at h
    | obj kk => simp only [hl0] at h; simp at h

theorem success_reparse {kvs : List (Str × Json)} {n : Nat}
    (hwfkvs : Json.wfKvsB kvs = true)
    (hn : Py.pyLen ((Json.lookup (fixQuestions (injectDefaults kvs))
        "questions".data).getD (.arr [])) = .ok n) :
    parse_response (Json.dumps (.obj (Json.setKey (fixQuestions (injectDefaults kvs))
      "total_questions".data (.intNum n)))) =
    some (Json.dumps (.obj (Json.setKey (fixQuestions (injectDefaults kvs))
      "total_questions".data (.intNum n)))) := by
  have hqne : ("questions".data : Str) ≠ "total_questions".data := by decide
  have hlookF : ∀ x : Str, x ≠ "total_questions".data →
      Json.lookup (Json.setKey (fixQuestions (injectDefaults kvs))
        "total_questions".data (.intNum n)) x =
      Json.lookup (fixQuestions (injectDefaults kvs)) x := by
    intro x hx
    exact Json.lookup_setKey_other _ _ _ _ hx
  apply @question_reparse_fixed _ n
  · apply Json.wfKvsB_setKey
    · apply fixQuestions_wf
      rw [question_injectDefaults_eq]
      exact Json.wfKvsB_injectLoop fieldDefault required_fields hwfkvs
        (fun f _ => question_fieldDefault_wf f)
    · rfl
  · intro f hf
    rw [Json.hasKey_setKey]
    have : Json.hasKey (fixQuestions (injectDefaults kvs)) f = true := by
      apply hasKey_fixQuestions
      rw [question_injectDefaults_eq]
      exact Json.hasKey_injectLoop_mem fieldDefault hf
    rw [this]
    rfl
  · apply fixQuestions_eq_self
    intro qs1 hq
    rw [hlookF _ hqne] at hq
    exact lookup_fixQuestions_fixed hq
  · rw [hlookF _ hqne]
    exact hn
  · exact Json.lookup_setKey_self _ _ _

theorem question_idem {x y : Str} (h : parse_response x = some y) :
    parse_response y = some y := by
  rw [parse_response] at h
  cases he : extractJsonSub x with
  | none =>
    simp only [he] at h
    injection h with h
    subst h
    exact fallback_reparse x
  | some js =>
    simp only [he] at h
    cases hl : Json.json_loads js with
    | none =>
      simp only [hl] at h
      injection h with h
      subst h
      exact fallback_reparse x
    | some v =>
      simp only [hl] at h
      cases v with
      | obj kvs =>
        simp only [Option.some.injEq] at h
        have hwfkvs : Json.wfKvsB kvs = true := by
          have := Json.json_loads_wf hl
          simpa [Json.wfB] using this
        cases hlen : Py.pyLen ((Json.lookup (fixQuestions (injectDefaults kvs))
            "questions".data).getD (.arr [])) with
        | error e =>
          rw [hlen] at h
          exact absurd h (by simp)
        | ok n =>
          rw [hlen] at h
          simp only [Option.some.injEq] at h
          subst h
          exact success_reparse hwfkvs hlen
      | null => simp at h
      | bool b => simp at h
      | intNum m => simp at h
      | floatNum m e => simp at h
      | str s => simp at h
      | arr l => simp at h

end QuestionGeneratorTool

namespace QuestionGeneratorTool

theorem fallbackData_wf (text : Str) : Json.wfB (fallbackData text) = true := by
  have hshape : fallbackData text = .obj
      [("questions".data, .arr (fallbackQuestions text)),
       ("total_questions".data, .intNum (fallbackQuestions text).length),
       ("estimated_duration".data, .intNum ((fallbackQuestions text).length * 4)),
       ("difficulty_distribution".data,
         .obj [("Medium".data, .intNum (fallbackQuestions text).length)]),
       ("category_distribution".data,
         .obj [("General".data, .intNum (fallbackQuestions text).length)])] := rfl
  rw [hshape]
  simp +decide [Json.wfB, Json.wfKvsB, Json.hasKey, Json.wfListB, fallbackQuestions_wf text]

theorem successF_wf {kvs : List (Str × Json)} (n : Nat)
    (hwfkvs : Json.wfKvsB kvs = true) :
    Json.wfKvsB (Json.setKey (fixQuestions (injectDefaults kvs))
      "total_questions".data (.intNum n)) = true := by
  apply Json.wfKvsB_setKey
  · apply fixQuestions_wf
    rw [question_injectDefaults_eq]
    exact Json.wfKvsB_injectLoop fieldDefault required_fields hwfkvs
      (fun f _ => question_fieldDefault_wf f)
  · rfl

theorem total_matches_questions {text out : Str} {K : List (Str × Json)}
    {qs : List Json}
    (h : parse_response text = some out)
    (hK : Json.json_loads out = some (.obj K))
    (hqs : Json.lookup K "questions".data = some (.arr qs)) :
    Json.lookup K "total_questions".data = some (.intNum qs.length) := by
  have hfallback : ∀ hout : out = Json.dumps (fallbackData text),
      Json.lookup K "total_questions".data = some (.intNum qs.length) := by
    intro hout
    subst hout
    rw [Json.json_loads_dumps (fallbackData_wf text)] at hK
    have hshape : fallbackData text = .obj
        [("questions".data, .arr (fallbackQuestions text)),
         ("total_questions".data, .intNum (fallbackQuestions text).length),
         ("estimated_duration".data, .intNum ((fallbackQuestions text).length * 4)),
         ("difficulty_distribution".data,
           .obj [("Medium".data, .intNum (fallbackQuestions text).length)]),
         ("category_distribution".data,
           .obj [("General".data, .intNum (fallbackQuestions text).length)])] := rfl
    rw [hshape] at hK
    injection hK with hK
    injection hK with hK
    subst hK
    rw [Json.lookup, if_pos rfl] at hqs
    injection hqs with hqs
    injection hqs with hqs
    simp +decide [Json.lookup, hqs]
  rw [parse_response] at h
  cases he : extractJsonSub text with
  | none =>
    simp only [he] at h
    injection h with h
    exact hfallback h.symm
  | some js =>
    simp only [he] at h
    cases hl : Json.json_loads js with
    | none =>
      simp only [hl] at h
      injection h with h
      exact hfallback h.symm
    | some v =>
      simp only [hl] at h
      cases v with
      | obj kvs =>
        have hwfkvs : Json.wfKvsB kvs = true := by
          have := Json.json_loads_wf hl
          simpa [Json.wfB] using this
        simp only [Option.some.injEq] at h
        cases hlen : Py.pyLen ((Json.lookup (fixQuestions (injectDefaults kvs))
            "questions".data).getD (.arr [])) with
        | error e =>
          rw [hlen] at h
          exact absurd h (by simp)
        | ok n =>
          rw [hlen] at h
          simp only [Option.some.injEq] at h
          subst h
          rw [Json.json_loads_dumps
            (by simpa [Json.wfB] using @successF_wf kvs n hwfkvs)] at hK
          injection hK with hK
          injection hK with hK
          subst hK
          rw [Json.lookup_setKey_other _ _ _ _
            (by decide : ("questions".data : Str) ≠ "total_questions".data)] at hqs
          rw [hqs] at hlen
          simp only [Option.getD_some, Py.pyLen] at hlen
          injection hlen with hlen
          subst hlen
          exact Json.lookup_setKey_self _ _ _
      | null => simp at h
      | bool b => simp at h
      | intNum m => simp at h
      | floatNum m e => simp at h
      | str s => simp at h
      | arr l => simp at h

end QuestionGeneratorTool

namespace PyStr

theorem containsSub_append_left {needle s : Str} (t : Str)
    (h : containsSub needle s = true) : containsSub needle (s ++ t) = true := by
  rw [containsSub] at h ⊢
  simp only [List.any_eq_true] at h ⊢
  obtain ⟨tail, htail, hpre⟩ := h
  refine ⟨tail ++ t, ?_, ?_⟩
  · rw [List.tails_append]
    apply List.mem_append_left
    exact List.mem_map.mpr ⟨tail, htail, rfl⟩
  · rw [List.isPrefixOf_iff_prefix] at hpre ⊢
    exact hpre.trans (List.prefix_append tail t)

theorem containsSub_ne_nil {needle s : Str} (hn : needle ≠ [])
    (h : containsSub needle s = true) : s ≠ [] := by
  intro hs
  subst hs
  rw [containsSub] at h
  simp only [List.tails, List.any_cons, List.any_nil, Bool.or_false] at h
  rw [List.isPrefixOf_iff_prefix] at h
  exact hn (List.prefix_nil.mp h)

end PyStr

namespace ProfileExtractorTool

theorem lookup_coerceYears_other {kvs2 : List (Str × Json)} {f : Str}
    (h : f ≠ "total_experience_years".data) :
    Json.lookup (coerceYears kvs2) f = Json.lookup kvs2 f := by
  rw [coerceYears]
  split
  · exact Json.lookup_setKey_other _ _ _ _ h
  · rfl

theorem lookup_coerceYears_missing_years {kvs : List (Str × Json)}
    (hmiss : Json.hasKey kvs "total_experience_years".data = false) :
    Json.lookup (coerceYears (injectDefaults kvs)) "total_experience_years".data =
      some (.floatNum 0 1) := by
  have hmem : ("total_experience_years".data : Str) ∈ required_fields := by decide
  have hdef : Json.lookup (injectDefaults kvs) "total_experience_years".data =
      some (.arr []) := by
    rw [injectDefaults_eq]
    exact Json.lookup_injectLoop_default fieldDefault hmem hmiss
  have hkey : Json.hasKey (injectDefaults kvs) "total_experience_years".data = true := by
    rw [injectDefaults_eq]
    exact Json.hasKey_injectLoop_mem fieldDefault hmem
  rw [coerceYears, if_pos hkey, Json.lookup_setKey_self, hdef]
  rfl

end ProfileExtractorTool

namespace QuestionGeneratorTool

theorem lookup_fixQuestions_other {kvs2 : List (Str × Json)} {f : Str}
    (h : f ≠ "questions".data) :
    Json.lookup (fixQuestions kvs2) f = Json.lookup kvs2 f := by
  rw [fixQuestions]
  cases hl : Json.lookup kvs2 "questions".data with
  | none => rfl
  | some v =>
    cases v with
    | arr qs => exact Json.lookup_setKey_other _ _ _ _ h
    | null => rfl
    | bool b => rfl
    | intNum m => rfl
    | floatNum m e => rfl
    | str s => rfl
    | obj kk => rfl

theorem lookup_fixQuestions_missing_questions {kvs : List (Str × Json)}
    (hmiss : Json.hasKey kvs "questions".data = false) :
    Json.lookup (fixQuestions (injectDefaults kvs)) "questions".data =
      some (.arr []) := by
  have hmem : ("questions".data : Str) ∈ required_fields := by decide
  have hdef : Json.lookup (injectDefaults kvs) "questions".data = some (.arr []) := by
    rw [question_injectDefaults_eq]
    exact Json.lookup_injectLoop_default fieldDefault hmem hmiss
  rw [fixQuestions]
  simp only [hdef]
  rw [Json.lookup_setKey_self]
  rfl

end QuestionGeneratorTool

namespace QuestionGeneratorTool

theorem fallbackQuestions_shape {text : Str} {q : Json}
    (h : q ∈ fallbackQuestions text) :
    ∃ line, q = .obj
      [("question".data, .str line),
       ("category".data, .str "General".data),
       ("difficulty".data, .str "Medium".data),
       ("purpose".data, .str "General assessment".data),
       ("expected_answer_type".data, .str "Detailed response".data)] := by
  rw [fallbackQuestions] at h
  obtain ⟨l, -, hl⟩ := List.mem_filterMap.mp h
  by_cases hemp : (PyStr.strip l).isEmpty = true
  · rw [if_pos hemp] at hl
    exact absurd hl (by simp)
  · rw [if_neg hemp] at hl
    injection hl with hl
    exact ⟨PyStr.strip l, hl.symm⟩

theorem fallbackQuestions_length (text : Str) :
    (fallbackQuestions text).length =
      (((PyStr.splitLines (PyStr.strip text)).take 15).filter
        (fun line => !(PyStr.strip line).isEmpty)).length := by
  rw [fallbackQuestions]
  generalize (PyStr.splitLines (PyStr.strip text)).take 15 = ls
  induction ls with
  | nil => rfl
  | cons l rest ih =>
    rw [List.filterMap_cons, List.filter_cons]
    by_cases hemp : (PyStr.strip l).isEmpty = true
    · simp only [hemp, if_true, Bool.not_true, Bool.false_eq_true, if_false]
      exact ih
    · simp only [hemp, if_false, Bool.false_eq_true, Bool.not_false, if_true]
      simp only [List.length_cons, ih]

end QuestionGeneratorTool

/-! ## The claims -/

/-- C1: corrected form of the aggregator-robustness claim.  For stored rows
whose nested JSON columns are well-typed (absent or null fields allowed), the
embedded aggregator computations of `AnalyticsService` — `_analyze_skills`,
`_generate_improvement_suggestions`, and the `get_skill_analytics` aggregation
loop — complete without raising.  The unrestricted claim (any malformed nested
field is treated as empty) is refuted by `counterexample_C1`: a non-dict
`extracted_profile` makes `_analyze_skills` raise `AttributeError`. -/
theorem claim_C1 (rows : List CVAnalysisRow) (cv : CVAnalysisRow)
    (hcv : cv ∈ rows) (hwf : rows.all AnalyticsService.rowWF = true) :
    AnalyticsService.okB (AnalyticsService.analyze_skills cv) = true ∧
    AnalyticsService.okB (AnalyticsService.generate_improvement_suggestions cv) = true ∧
    AnalyticsService.okB (AnalyticsService.skill_analytics_core rows) = true := by
  have hrow : AnalyticsService.rowWF cv = true := by
    simp only [List.all_eq_true] at hwf
    exact hwf cv hcv
  have hp : AnalyticsService.profileColWF cv.extracted_profile = true := by
    rw [AnalyticsService.rowWF, Bool.and_eq_true] at hrow
    exact hrow.2
  exact ⟨AnalyticsService.analyze_skills_ok hrow,
    AnalyticsService.improvement_ok hp,
    AnalyticsService.skill_analytics_core_ok hwf⟩

/-- A concrete well-typed row for the C1 witness. -/
def c1row : CVAnalysisRow :=
  ⟨Json.arr [Json.str "Python".data],
   Json.obj [("skills".data, Json.obj [("technical".data, Json.arr [Json.str "Python".data])])],
   "2024-01".data⟩

/-- Witness for C1 at a concrete single-row table. -/
theorem witness_C1 :
    ([c1row].all AnalyticsService.rowWF = true) ∧
    (AnalyticsService.okB (AnalyticsService.analyze_skills c1row) = true ∧
     AnalyticsService.okB (AnalyticsService.generate_improvement_suggestions c1row) = true ∧
     AnalyticsService.okB (AnalyticsService.skill_analytics_core [c1row]) = true) :=
  ⟨by decide, claim_C1 [c1row] c1row (List.mem_singleton.mpr rfl) (by decide)⟩

/-- Counterexample for C1 as stated: a malformed (string-valued)
`extracted_profile` makes `_analyze_skills` raise `AttributeError` instead of
being treated as empty. -/
theorem counterexample_C1 :
    AnalyticsService.analyze_skills ⟨Json.null, Json.str "x".data, []⟩ =
      .error Py.Err.attributeError := rfl

/-- C2: the skill-trends computation, modelled from the spec (the helpers
`_identify_trending_skills(..., "up"/"down")` are called by
`AnalyticsService.get_skill_analytics` but defined nowhere in the repository
sources).  With `recent` the month bucket with the greatest key and `prev` the
greatest among the rest, a skill is in the trending-up list exactly when its
`recent` count strictly exceeds its `prev` count, in the trending-down list
exactly when it is strictly smaller, and ties are in neither. -/
theorem claim_C2 (monthly : List (Str × List (Str × Nat)))
    (recent prev : Str × List (Str × Nat)) (s : Str)
    (hn : (monthly.map Prod.fst).Nodup)
    (hr : recent ∈ monthly) (hp : prev ∈ monthly)
    (hne : prev.1 ≠ recent.1)
    (hrmax : ∀ q ∈ monthly, AnalyticsService.strLe q.1 recent.1 = true)
    (hpmax : ∀ q ∈ monthly, q.1 ≠ recent.1 → AnalyticsService.strLe q.1 prev.1 = true) :
    (s ∈ AnalyticsService.identify_trending_skills_up monthly ↔
      AnalyticsService.lookupNat prev.2 s < AnalyticsService.lookupNat recent.2 s) ∧
    (s ∈ AnalyticsService.identify_trending_skills_down monthly ↔
      AnalyticsService.lookupNat recent.2 s < AnalyticsService.lookupNat prev.2 s) := by
  have h := AnalyticsService.twoMostRecent_eq hn hr hp hne hrmax hpmax
  exact ⟨AnalyticsService.trending_up_mem s h, AnalyticsService.trending_down_mem s h⟩

/-- Two concrete month buckets for the C2 witness. -/
def c2monthly : List (Str × List (Str × Nat)) :=
  [("2024-01".data, [("python".data, 1), ("sql".data, 2), ("go".data, 1)]),
   ("2024-02".data, [("python".data, 3), ("sql".data, 1), ("go".data, 1)])]

/-- Witness for C2 on two concrete buckets (`python` counts 1 then 3). -/
theorem witness_C2 :
    ((c2monthly.map Prod.fst).Nodup ∧
     (∀ q ∈ c2monthly, AnalyticsService.strLe q.1 "2024-02".data = true) ∧
     (∀ q ∈ c2monthly, q.1 ≠ "2024-02".data →
        AnalyticsService.strLe q.1 "2024-01".data = true)) ∧
    (("python".data ∈ AnalyticsService.identify_trending_skills_up c2monthly ↔
       AnalyticsService.lookupNat [("python".data, 1), ("sql".data, 2), ("go".data, 1)]
         "python".data <
       AnalyticsService.lookupNat [("python".data, 3), ("sql".data, 1), ("go".data, 1)]
         "python".data) ∧
     ("python".data ∈ AnalyticsService.identify_trending_skills_down c2monthly ↔
       AnalyticsService.lookupNat [("python".data, 3), ("sql".data, 1), ("go".data, 1)]
         "python".data <
       AnalyticsService.lookupNat [("python".data, 1), ("sql".data, 2), ("go".data, 1)]
         "python".data)) :=
  ⟨⟨by decide, by decide, by decide⟩,
   claim_C2 c2monthly
     ("2024-02".data, [("python".data, 3), ("sql".data, 1), ("go".data, 1)])
     ("2024-01".data, [("python".data, 1), ("sql".data, 2), ("go".data, 1)])
     "python".data (by decide) (by decide) (by decide) (by decide) (by decide) (by decide)⟩

/-- C4: corrected form of the extraction-failure claim.  When the extractor
reports an unreadable file (`os.path.exists` false) or a conversion exception,
its sentinel text contains `"Error"`, so the pipeline aborts with status
`"failed"` and no later stage output is included.  The other "content error"
of the claim — empty extracted output — does NOT abort: its sentinel
`"⚠️ No text was extracted from the PDF."` contains no `"Error"`, so the
pipeline proceeds (`counterexample_C4`). -/
theorem claim_C4 (pathExists : Bool) (conv : Except Str Str)
    (stage2 stage3 : Str → Except Str Str) (stage4 : Str → Str → Str → Except Str Str)
    (file_path target_role difficulty_level : Str) (elapsed : Rat)
    (h : pathExists = false ∨ ∃ e, conv = .error e) :
    (EnhancedCVAgent.process_cv_comprehensive pathExists conv stage2 stage3 stage4
      file_path target_role difficulty_level elapsed).status = "failed".data ∧
    (EnhancedCVAgent.process_cv_comprehensive pathExists conv stage2 stage3 stage4
      file_path target_role difficulty_level elapsed).profile_analysis = none ∧
    (EnhancedCVAgent.process_cv_comprehensive pathExists conv stage2 stage3 stage4
      file_path target_role difficulty_level elapsed).career_recommendations = none ∧
    (EnhancedCVAgent.process_cv_comprehensive pathExists conv stage2 stage3 stage4
      file_path target_role difficulty_level elapsed).interview_questions = none := by
  have hraw : PyStr.containsSub "Error".data
      (PDFConverterTool.run pathExists conv file_path) = true := by
    rcases h with h | ⟨e, h⟩
    · subst h
      rw [PDFConverterTool.run, PDFConverterTool.convert_pdf_sync.eq_def]
      simp only [Bool.not_false, if_true]
      apply PyStr.containsSub_append_left
      apply PyStr.containsSub_append_left
      decide
    · subst h
      rw [PDFConverterTool.run, PDFConverterTool.convert_pdf_sync.eq_def]
      cases pathExists with
      | false =>
        simp only [Bool.not_false, if_true]
        apply PyStr.containsSub_append_left
        apply PyStr.containsSub_append_left
        decide
      | true =>
        simp only [Bool.not_true, Bool.false_eq_true, if_false]
        apply PyStr.containsSub_append_left
        decide
  simp only [EnhancedCVAgent.process_cv_comprehensive]
  rw [if_pos hraw]
  exact ⟨rfl, rfl, rfl, rfl⟩

/-- Witness for C4: a missing file aborts the pipeline. -/
theorem witness_C4 :
    ((false : Bool) = false ∨ ∃ e, (Except.ok [] : Except Str Str) = .error e) ∧
    ((EnhancedCVAgent.process_cv_comprehensive false (.ok []) (fun _ => .ok [])
        (fun _ => .ok []) (fun _ _ _ => .ok []) "cv.pdf".data [] [] 0).status =
        "failed".data ∧
     (EnhancedCVAgent.process_cv_comprehensive false (.ok []) (fun _ => .ok [])
        (fun _ => .ok []) (fun _ _ _ => .ok []) "cv.pdf".data [] [] 0).profile_analysis =
        none ∧
     (EnhancedCVAgent.process_cv_comprehensive false (.ok []) (fun _ => .ok [])
        (fun _ => .ok []) (fun _ _ _ => .ok []) "cv.pdf".data [] [] 0).career_recommendations =
        none ∧
     (EnhancedCVAgent.process_cv_comprehensive false (.ok []) (fun _ => .ok [])
        (fun _ => .ok []) (fun _ _ _ => .ok []) "cv.pdf".data [] [] 0).interview_questions =
        none) :=
  ⟨Or.inl rfl,
   claim_C4 false (.ok []) (fun _ => .ok []) (fun _ => .ok []) (fun _ _ _ => .ok [])
     "cv.pdf".data [] [] 0 (Or.inl rfl)⟩

/-- Counterexample for C4 as stated: empty extracted output (a content error
per the spec) does not abort — the run completes with every stage executed. -/
theorem counterexample_C4 :
    (EnhancedCVAgent.process_cv_comprehensive true (.ok []) (fun _ => .ok [])
      (fun _ => .ok []) (fun _ _ _ => .ok []) "cv.pdf".data [] [] 0).status =
      "completed".data ∧
    (EnhancedCVAgent.process_cv_comprehensive true (.ok []) (fun _ => .ok [])
      (fun _ => .ok []) (fun _ _ _ => .ok []) "cv.pdf".data [] [] 0).raw_text =
      some "⚠️ No text was extracted from the PDF.".data := ⟨rfl, rfl⟩

/-- C5: every run of the pipeline returns a well-formed envelope: either
status `"completed"` with no error, or status `"failed"` with a message in
`error`; no exception from stages 2-4 propagates (stage exceptions are the
`.error` oracle outcomes, all mapped to the failure envelope). -/
theorem claim_C5 (pathExists : Bool) (conv : Except Str Str)
    (stage2 stage3 : Str → Except Str Str) (stage4 : Str → Str → Str → Except Str Str)
    (file_path target_role difficulty_level : Str) (elapsed : Rat) :
    ((EnhancedCVAgent.process_cv_comprehensive pathExists conv stage2 stage3 stage4
        file_path target_role difficulty_level elapsed).status = "completed".data ∧
     (EnhancedCVAgent.process_cv_comprehensive pathExists conv stage2 stage3 stage4
        file_path target_role difficulty_level elapsed).error = none) ∨
    ((EnhancedCVAgent.process_cv_comprehensive pathExists conv stage2 stage3 stage4
        file_path target_role difficulty_level elapsed).status = "failed".data ∧
     ∃ m, (EnhancedCVAgent.process_cv_comprehensive pathExists conv stage2 stage3 stage4
        file_path target_role difficulty_level elapsed).error = some m) := by
  simp only [EnhancedCVAgent.process_cv_comprehensive]
  by_cases h : PyStr.containsSub "Error".data
      (PDFConverterTool.run pathExists conv file_path) = true
  · rw [if_pos h]
    right
    exact ⟨rfl, _, rfl⟩
  · rw [if_neg h]
    split
    · right
      next e _ => exact ⟨rfl, e, rfl⟩
    · split
      · right
        next e _ => exact ⟨rfl, e, rfl⟩
      · split
        · right
          next e _ => exact ⟨rfl, e, rfl⟩
        · left
          exact ⟨rfl, rfl⟩

/-- C9: corrected form of the confidence-range claim.  The agent's
`_extract_career_confidence` passes the stored `confidence_score` value
through unchanged, so a source score inside `[0, 1]` is reported inside
`[0, 1]`; but no clamping exists, so an out-of-range source score is reported
out of range (`counterexample_C9` reports `1.5`). -/
theorem claim_C9 (kvs : List (Str × Json)) (v : Json) (q : Rat)
    (hl : Json.lookup kvs "confidence_score".data = some v)
    (hv : Py.pyNumVal v = some q) (h0 : 0 ≤ q) (h1 : q ≤ 1) :
    ∃ q2, Py.pyNumVal (EnhancedCVAgent.extract_career_confidence
        (.inl (.obj kvs))) = some q2 ∧ 0 ≤ q2 ∧ q2 ≤ 1 := by
  rw [EnhancedCVAgent.extract_career_confidence, hl]
  exact ⟨q, by simpa using hv, h0, h1⟩

/-- Witness for C9 at a stored score of `0.85`. -/
theorem witness_C9 :
    (Json.lookup [("confidence_score".data, Json.floatNum 85 2)]
        "confidence_score".data = some (Json.floatNum 85 2) ∧
     Py.pyNumVal (Json.floatNum 85 2) = some (17/20 : Rat) ∧
     (0 : Rat) ≤ 17/20 ∧ (17/20 : Rat) ≤ 1) ∧
    (∃ q2, Py.pyNumVal (EnhancedCVAgent.extract_career_confidence
        (.inl (.obj [("confidence_score".data, Json.floatNum 85 2)]))) = some q2 ∧
      0 ≤ q2 ∧ q2 ≤ 1) :=
  ⟨⟨rfl, by norm_num [Py.pyNumVal], by norm_num, by norm_num⟩,
   claim_C9 [("confidence_score".data, Json.floatNum 85 2)] (Json.floatNum 85 2)
     (17/20) rfl (by norm_num [Py.pyNumVal]) (by norm_num) (by norm_num)⟩

/-- Counterexample for C9 as stated: a stored score of `1.5` is reported as
`1.5`, violating the `score ≤ 1.0` invariant. -/
theorem counterexample_C9 :
    Py.pyNumVal (EnhancedCVAgent.extract_career_confidence
      (.inl (.obj [("confidence_score".data, Json.floatNum 15 1)]))) =
      some (3/2 : Rat) ∧ ¬((3/2 : Rat) ≤ 1) := by
  constructor
  · norm_num [EnhancedCVAgent.extract_career_confidence, Json.lookup, Py.pyNumVal]
  · norm_num

/-- C10: stage-1 failure is a substring test: any successfully extracted text
containing `"Error"` — for example ordinary resume content — aborts the
pipeline with status `"failed"` and no stage executed. -/
theorem claim_C10 (conv_md : Str) (stage2 stage3 : Str → Except Str Str)
    (stage4 : Str → Str → Str → Except Str Str)
    (file_path target_role difficulty_level : Str) (elapsed : Rat)
    (h : PyStr.containsSub "Error".data (PyStr.strip conv_md) = true) :
    (EnhancedCVAgent.process_cv_comprehensive true (.ok conv_md) stage2 stage3 stage4
      file_path target_role difficulty_level elapsed).status = "failed".data ∧
    (EnhancedCVAgent.process_cv_comprehensive true (.ok conv_md) stage2 stage3 stage4
      file_path target_role difficulty_level elapsed).profile_analysis = none ∧
    (EnhancedCVAgent.process_cv_comprehensive true (.ok conv_md) stage2 stage3 stage4
      file_path target_role difficulty_level elapsed).interview_questions = none ∧
    (EnhancedCVAgent.process_cv_comprehensive true (.ok conv_md) stage2 stage3 stage4
      file_path target_role difficulty_level elapsed).error =
      some ("PDF extraction failed: ".data ++ PyStr.strip conv_md) := by
  have hne : PyStr.strip conv_md ≠ [] :=
    PyStr.containsSub_ne_nil (by decide) h
  have hemp : (PyStr.strip conv_md).isEmpty = false := by
    cases hsm : PyStr.strip conv_md with
    | nil => exact absurd hsm hne
    | cons c t => rfl
  have hraw : PDFConverterTool.run true (.ok conv_md) file_path =
      PyStr.strip conv_md := by
    rw [PDFConverterTool.run, PDFConverterTool.convert_pdf_sync.eq_def]
    simp only [Bool.not_true, Bool.false_eq_true, if_false, hemp]
  simp only [EnhancedCVAgent.process_cv_comprehensive, hraw]
  rw [if_pos h]
  exact ⟨rfl, rfl, rfl, rfl⟩

/-- Witness for C10: resume text mentioning `"Error"` aborts the run. -/
theorem witness_C10 :
    (PyStr.containsSub "Error".data
      (PyStr.strip "Expert in Error handling and recovery".data) = true) ∧
    ((EnhancedCVAgent.process_cv_comprehensive true
        (.ok "Expert in Error handling and recovery".data) (fun _ => .ok [])
        (fun _ => .ok []) (fun _ _ _ => .ok []) "cv.pdf".data [] [] 0).status =
        "failed".data ∧
     (EnhancedCVAgent.process_cv_comprehensive true
        (.ok "Expert in Error handling and recovery".data) (fun _ => .ok [])
        (fun _ => .ok []) (fun _ _ _ => .ok []) "cv.pdf".data [] [] 0).profile_analysis =
        none ∧
     (EnhancedCVAgent.process_cv_comprehensive true
        (.ok "Expert in Error handling and recovery".data) (fun _ => .ok [])
        (fun _ => .ok []) (fun _ _ _ => .ok []) "cv.pdf".data [] [] 0).interview_questions =
        none ∧
     (EnhancedCVAgent.process_cv_comprehensive true
        (.ok "Expert in Error handling and recovery".data) (fun _ => .ok [])
        (fun _ => .ok []) (fun _ _ _ => .ok []) "cv.pdf".data [] [] 0).error =
      some ("PDF extraction failed: ".data ++
        PyStr.strip "Expert in Error handling and recovery".data)) :=
  ⟨by decide,
   claim_C10 "Expert in Error handling and recovery".data (fun _ => .ok [])
     (fun _ => .ok []) (fun _ _ _ => .ok []) "cv.pdf".data [] [] 0 (by decide)⟩

/-- C3: corrected form of the default-injection claim.  On parse success the
profile and question variants inject every missing required field's declared
default and return the completed object (for the profile variant a missing
`total_experience_years` ends as `0.0` after the float coercion; for the
question variant `total_questions` is subsequently overwritten with the
question count, so the default-value statement is for the other fields).  The
recommendation variant does NOT inject: it raises `ValueError` on the first
missing required field and falls back to the raw text
(`counterexample_C3`). -/
theorem claim_C3 (textP textQ jsP jsQ : Str) (kvsP kvsQ : List (Str × Json))
    (f g : Str) (n : Nat)
    (hPex : extractJsonSub textP = some jsP)
    (hPld : Json.json_loads jsP = some (.obj kvsP))
    (hf : f ∈ ProfileExtractorTool.required_fields)
    (hfm : Json.hasKey kvsP f = false)
    (hQex : extractJsonSub textQ = some jsQ)
    (hQld : Json.json_loads jsQ = some (.obj kvsQ))
    (hg : g ∈ QuestionGeneratorTool.required_fields)
    (hgm : Json.hasKey kvsQ g = false)
    (hgt : g ≠ "total_questions".data)
    (hn : Py.pyLen ((Json.lookup (QuestionGeneratorTool.fixQuestions
        (QuestionGeneratorTool.injectDefaults kvsQ)) "questions".data).getD (.arr []))
        = .ok n) :
    (ProfileExtractorTool.parse_response textP =
        some (Json.dumps (.obj (ProfileExtractorTool.coerceYears
          (ProfileExtractorTool.injectDefaults kvsP)))) ∧
     Json.lookup (ProfileExtractorTool.coerceYears
        (ProfileExtractorTool.injectDefaults kvsP)) f =
        some (if f = "total_experience_years".data then .floatNum 0 1
              else ProfileExtractorTool.fieldDefault f)) ∧
    (QuestionGeneratorTool.parse_response textQ =
        some (Json.dumps (.obj (Json.setKey (QuestionGeneratorTool.fixQuestions
          (QuestionGeneratorTool.injectDefaults kvsQ)) "total_questions".data
          (.intNum n)))) ∧
     Json.lookup (Json.setKey (QuestionGeneratorTool.fixQuestions
        (QuestionGeneratorTool.injectDefaults kvsQ)) "total_questions".data
        (.intNum n)) g = some (QuestionGeneratorTool.fieldDefault g)) := by
  refine ⟨⟨?_, ?_⟩, ⟨?_, ?_⟩⟩
  · simp only [ProfileExtractorTool.parse_response, hPex, hPld]
  · by_cases hfy : f = "total_experience_years".data
    · subst hfy
      rw [if_pos rfl]
      exact ProfileExtractorTool.lookup_coerceYears_missing_years hfm
    · rw [if_neg hfy, ProfileExtractorTool.lookup_coerceYears_other hfy,
        ProfileExtractorTool.injectDefaults_eq]
      exact Json.lookup_injectLoop_default _ hf hfm
  · simp only [QuestionGeneratorTool.parse_response, hQex, hQld, hn]
  · rw [Json.lookup_setKey_other _ _ _ _ hgt]
    by_cases hgq : g = "questions".data
    · subst hgq
      rw [QuestionGeneratorTool.lookup_fixQuestions_missing_questions hgm]
      rfl
    · rw [QuestionGeneratorTool.lookup_fixQuestions_other hgq,
        QuestionGeneratorTool.question_injectDefaults_eq]
      exact Json.lookup_injectLoop_default _ hg hgm

/-- Concrete witness inputs for C3. -/
def c3textP : Str := "\x7b\"a\": 1\x7d".data

/-- The object `c3textP` parses to. -/
def c3kvsP : List (Str × Json) := [("a".data, Json.intNum 1)]

/-- Concrete question-variant input for C3. -/
def c3textQ : Str := "\x7b\"b\": 2\x7d".data

/-- The object `c3textQ` parses to. -/
def c3kvsQ : List (Str × Json) := [("b".data, Json.intNum 2)]

/-- Witness for C3: missing `skills` (profile) and missing
`estimated_duration` (question) are injected. -/
theorem witness_C3 :
    (extractJsonSub c3textP = some c3textP ∧
     Json.json_loads c3textP = some (.obj c3kvsP) ∧
     "skills".data ∈ ProfileExtractorTool.required_fields ∧
     Json.hasKey c3kvsP "skills".data = false ∧
     extractJsonSub c3textQ = some c3textQ ∧
     Json.json_loads c3textQ = some (.obj c3kvsQ) ∧
     "estimated_duration".data ∈ QuestionGeneratorTool.required_fields ∧
     Json.hasKey c3kvsQ "estimated_duration".data = false ∧
     Py.pyLen ((Json.lookup (QuestionGeneratorTool.fixQuestions
       (QuestionGeneratorTool.injectDefaults c3kvsQ)) "questions".data).getD (.arr []))
       = .ok 0) ∧
    ((ProfileExtractorTool.parse_response c3textP =
        some (Json.dumps (.obj (ProfileExtractorTool.coerceYears
          (ProfileExtractorTool.injectDefaults c3kvsP)))) ∧
      Json.lookup (ProfileExtractorTool.coerceYears
        (ProfileExtractorTool.injectDefaults c3kvsP)) "skills".data =
        some (if "skills".data = "total_experience_years".data then .floatNum 0 1
              else ProfileExtractorTool.fieldDefault "skills".data)) ∧
     (QuestionGeneratorTool.parse_response c3textQ =
        some (Json.dumps (.obj (Json.setKey (QuestionGeneratorTool.fixQuestions
          (QuestionGeneratorTool.injectDefaults c3kvsQ)) "total_questions".data
          (.intNum 0)))) ∧
      Json.lookup (Json.setKey (QuestionGeneratorTool.fixQuestions
        (QuestionGeneratorTool.injectDefaults c3kvsQ)) "total_questions".data
        (.intNum 0)) "estimated_duration".data =
        some (QuestionGeneratorTool.fieldDefault "estimated_duration".data))) :=
  ⟨⟨rfl, rfl, by decide, by decide, rfl, rfl, by decide, by decide, rfl⟩,
   claim_C3 c3textP c3textQ c3textP c3textQ c3kvsP c3kvsQ
     "skills".data "estimated_duration".data 0
     rfl rfl (by decide) (by decide) rfl rfl (by decide) (by decide) (by decide)
     rfl⟩

/-- Counterexample for C3 as stated: the recommendation variant returns the
raw text unchanged when a required field is missing — no default is
injected. -/
theorem counterexample_C3 :
    CareerRecommenderTool.parse_response "\x7b\"primary_role\": \"x\"\x7d".data =
      some "\x7b\"primary_role\": \"x\"\x7d".data ∧
    PyStr.containsSub "confidence_score".data
      "\x7b\"primary_role\": \"x\"\x7d".data = false :=
  ⟨rfl, by decide⟩

/-- C6: corrected form of the fallback-synthesis claim.  When structured
parsing fails entirely, the question normalizer returns the fallback
QuestionSet whose questions are all tagged `General`/`Medium`, whose
`estimated_duration` is 4 times the question count, and whose question list
comes from capping the raw split lines at 15 FIRST and then dropping blank
lines — not, as claimed, from capping the non-empty lines at 15.  The two
orders agree when the response has at most 15 raw lines (final conjunct);
`counterexample_C6` separates them. -/
theorem claim_C6 (text : Str)
    (hfail : Json.json_loads ((extractJsonSub text).getD []) = none) :
    QuestionGeneratorTool.parse_response text =
      some (Json.dumps (QuestionGeneratorTool.fallbackData text)) ∧
    (∀ q ∈ QuestionGeneratorTool.fallbackQuestions text, ∃ line, q = .obj
      [("question".data, .str line),
       ("category".data, .str "General".data),
       ("difficulty".data, .str "Medium".data),
       ("purpose".data, .str "General assessment".data),
       ("expected_answer_type".data, .str "Detailed response".data)]) ∧
    (∃ K, QuestionGeneratorTool.fallbackData text = .obj K ∧
      Json.lookup K "total_questions".data =
        some (.intNum (QuestionGeneratorTool.fallbackQuestions text).length) ∧
      Json.lookup K "estimated_duration".data =
        some (.intNum ((QuestionGeneratorTool.fallbackQuestions text).length * 4))) ∧
    ((PyStr.splitLines (PyStr.strip text)).length ≤ 15 →
      (QuestionGeneratorTool.fallbackQuestions text).length =
        ((PyStr.splitLines (PyStr.strip text)).filter
          (fun line => !(PyStr.strip line).isEmpty)).length) := by
  refine ⟨?_, fun q hq => QuestionGeneratorTool.fallbackQuestions_shape hq, ?_, ?_⟩
  · rw [QuestionGeneratorTool.parse_response]
    cases he : extractJsonSub text with
    | none => rfl
    | some js =>
      rw [he] at hfail
      simp only [Option.getD_some] at hfail
      simp only [hfail]
  · refine ⟨_, rfl, ?_, ?_⟩
    · simp +decide [Json.lookup]
    · simp +decide [Json.lookup]
  · intro hlen
    rw [QuestionGeneratorTool.fallbackQuestions_length, List.take_of_length_le hlen]

/-- Three-non-blank-line input for the C6 witness. -/
def c6text : Str := "Tell me about X\nWhat is Y\nDescribe Z".data

/-- Witness for C6: a 3-line non-JSON response yields 3 questions and a
12-minute estimate. -/
theorem witness_C6 :
    (Json.json_loads ((extractJsonSub c6text).getD []) = none ∧
     (QuestionGeneratorTool.fallbackQuestions c6text).length = 3) ∧
    (QuestionGeneratorTool.parse_response c6text =
      some (Json.dumps (QuestionGeneratorTool.fallbackData c6text)) ∧
    (∀ q ∈ QuestionGeneratorTool.fallbackQuestions c6text, ∃ line, q = .obj
      [("question".data, .str line),
       ("category".data, .str "General".data),
       ("difficulty".data, .str "Medium".data),
       ("purpose".data, .str "General assessment".data),
       ("expected_answer_type".data, .str "Detailed response".data)]) ∧
    (∃ K, QuestionGeneratorTool.fallbackData c6text = .obj K ∧
      Json.lookup K "total_questions".data =
        some (.intNum (QuestionGeneratorTool.fallbackQuestions c6text).length) ∧
      Json.lookup K "estimated_duration".data =
        some (.intNum ((QuestionGeneratorTool.fallbackQuestions c6text).length * 4))) ∧
    ((PyStr.splitLines (PyStr.strip c6text)).length ≤ 15 →
      (QuestionGeneratorTool.fallbackQuestions c6text).length =
        ((PyStr.splitLines (PyStr.strip c6text)).filter
          (fun line => !(PyStr.strip line).isEmpty)).length)) :=
  ⟨⟨rfl, by decide⟩, claim_C6 c6text rfl⟩

/-- Sixteen raw lines, blanks among the first fifteen. -/
def c6bad : Str := "a\n\n\n\n\n\n\n\n\n\n\n\n\n\n\nb".data

/-- Counterexample for C6 as stated: with 16 raw lines (14 blank), the code
synthesizes 1 question while the claimed non-empty-lines-capped-at-15 rule
gives 2. -/
theorem counterexample_C6 :
    (QuestionGeneratorTool.fallbackQuestions c6bad).length = 1 ∧
    ((PyStr.splitLines (PyStr.strip c6bad)).filter
      (fun line => !(PyStr.strip line).isEmpty)).length = 2 ∧
    QuestionGeneratorTool.parse_response c6bad =
      some (Json.dumps (QuestionGeneratorTool.fallbackData c6bad)) :=
  ⟨by decide, by decide, rfl⟩

/-- C7: normalizer idempotence.  The normalizers return serialized text, so
`normalize (serialize (normalize x)) = normalize x` reads
`parse_response y = some y` for every output `y = parse_response x`; it holds
for all three variants. -/
theorem claim_C7 (x yP yR yQ : Str)
    (hP : ProfileExtractorTool.parse_response x = some yP)
    (hR : CareerRecommenderTool.parse_response x = some yR)
    (hQ : QuestionGeneratorTool.parse_response x = some yQ) :
    ProfileExtractorTool.parse_response yP = some yP ∧
    CareerRecommenderTool.parse_response yR = some yR ∧
    QuestionGeneratorTool.parse_response yQ = some yQ :=
  ⟨ProfileExtractorTool.profile_idem hP, CareerRecommenderTool.recommender_idem hR,
   QuestionGeneratorTool.question_idem hQ⟩

/-- Witness for C7 at the non-JSON input `"hi"`. -/
theorem witness_C7 :
    (ProfileExtractorTool.parse_response "hi".data = some "hi".data ∧
     CareerRecommenderTool.parse_response "hi".data = some "hi".data ∧
     QuestionGeneratorTool.parse_response "hi".data =
       some (Json.dumps (QuestionGeneratorTool.fallbackData "hi".data))) ∧
    (ProfileExtractorTool.parse_response "hi".data = some "hi".data ∧
     CareerRecommenderTool.parse_response "hi".data = some "hi".data ∧
     QuestionGeneratorTool.parse_response
       (Json.dumps (QuestionGeneratorTool.fallbackData "hi".data)) =
       some (Json.dumps (QuestionGeneratorTool.fallbackData "hi".data))) :=
  ⟨⟨rfl, rfl, rfl⟩,
   claim_C7 "hi".data "hi".data "hi".data
     (Json.dumps (QuestionGeneratorTool.fallbackData "hi".data)) rfl rfl rfl⟩

/-- C8: whenever the question normalizer's output is a QuestionSet (its
`questions` value is a list), its `total_questions` equals that list's length
— on the parse-success path (where the count is recomputed with `len`) and on
the fallback path alike. -/
theorem claim_C8 (text out : Str) (K : List (Str × Json)) (qs : List Json)
    (h : QuestionGeneratorTool.parse_response text = some out)
    (hK : Json.json_loads out = some (.obj K))
    (hqs : Json.lookup K "questions".data = some (.arr qs)) :
    Json.lookup K "total_questions".data = some (.intNum qs.length) :=
  QuestionGeneratorTool.total_matches_questions h hK hqs

/-- Witness for C8 on the fallback output for `"hi"`. -/
theorem witness_C8 :
    (QuestionGeneratorTool.parse_response "hi".data =
       some (Json.dumps (QuestionGeneratorTool.fallbackData "hi".data)) ∧
     Json.json_loads (Json.dumps (QuestionGeneratorTool.fallbackData "hi".data)) =
       some (.obj
        [("questions".data, .arr (QuestionGeneratorTool.fallbackQuestions "hi".data)),
         ("total_questions".data,
           .intNum (QuestionGeneratorTool.fallbackQuestions "hi".data).length),
         ("estimated_duration".data,
           .intNum ((QuestionGeneratorTool.fallbackQuestions "hi".data).length * 4)),
         ("difficulty_distribution".data,
           .obj [("Medium".data,
             .intNum (QuestionGeneratorTool.fallbackQuestions "hi".data).length)]),
         ("category_distribution".data,
           .obj [("General".data,
             .intNum (QuestionGeneratorTool.fallbackQuestions "hi".data).length)])])) ∧
    Json.lookup
        [("questions".data, .arr (QuestionGeneratorTool.fallbackQuestions "hi".data)),
         ("total_questions".data,
           .intNum (QuestionGeneratorTool.fallbackQuestions "hi".data).length),
         ("estimated_duration".data,
           .intNum ((QuestionGeneratorTool.fallbackQuestions "hi".data).length * 4)),
         ("difficulty_distribution".data,
           .obj [("Medium".data,
             .intNum (QuestionGeneratorTool.fallbackQuestions "hi".data).length)]),
         ("category_distribution".data,
           .obj [("General".data,
             .intNum (QuestionGeneratorTool.fallbackQuestions "hi".data).length)])]
        "total_questions".data =
      some (.intNum (QuestionGeneratorTool.fallbackQuestions "hi".data).length) :=
  ⟨⟨rfl, by rw [Json.json_loads_dumps (QuestionGeneratorTool.fallbackData_wf "hi".data)]; rfl⟩,
   claim_C8 "hi".data (Json.dumps (QuestionGeneratorTool.fallbackData "hi".data))
     _ (QuestionGeneratorTool.fallbackQuestions "hi".data) rfl
     (by rw [Json.json_loads_dumps (QuestionGeneratorTool.fallbackData_wf "hi".data)]; rfl)
     (by rw [Json.lookup, if_pos rfl])⟩
